import Mathlib

/-!
Verification of the BS_SS2017_A3 demand-paging memory manager.

Shallow embedding of the two C modules the claims are about:
`src/A3_pub_SS_2016/mmanage.c` (fault handler, page-replacement policies
FIFO / CLOCK / AGING, shared-segment initialisation) and
`src/A3_pub_SS_2016/vmaccess.c` (address translator `vmem_read` /
`vmem_write` and the periodic aging pass), together with the swap-store
copy semantics of `src/pagefile.c`.

Modelling conventions:
* Machine `int` values are modelled as `Int`; index arrays of the C
  `struct vmem_struct` become total functions `Int → _` (C out-of-bounds
  accesses are undefined behaviour; all theorems carry the range
  hypotheses under which the C program stays in bounds).
* The 8-bit `age` and the `flags` bitset are modelled as `Nat` with
  `&&& ||| ^^^` for the C `& | ^` operators.
* `TEST_AND_EXIT(cond, ...)` (fatal abort) is modelled as `Except Sys _`
  returning `.error s` where `s` is the state at the moment of the abort.
* The never-terminating `for(;;)` of `find_remove_clock` is modelled with
  fuel `VMEM_NFRAMES + 1`; exhausted fuel is mapped to `.error` and is
  proved unreachable under the stated preconditions.
* The counting semaphore is an explicit counter; `sem_post` also appends
  an `Event.semPost` to an event trace so that release ordering and
  swap-store traffic (`Event.fetch` / `Event.store`) can be reasoned
  about.  The logger and the `struct logevent` global are external
  collaborators (spec section 6) and are not modelled.
-/

namespace VMA3

/-- Modelled from the spec: the header `vmem.h` is not under `src/`.  The
spec fixes pages and frames of one common fixed size; the literal bound
128 hard-coded in `vmaccess.c` equals `VMEM_NFRAMES * VMEM_PAGESIZE`
(the word count of the frame-data array). -/
def VMEM_PAGESIZE : Nat := 8

/-- Modelled from the spec: number of virtual pages
(`VMEM_VIRTMEMSIZE / VMEM_PAGESIZE`). -/
def VMEM_NPAGES : Nat := 128

/-- Modelled from the spec: number of physical frames; `16 * 8 = 128`
matches the physical bound checked in `vmem_read`/`vmem_write`. -/
def VMEM_NFRAMES : Nat := 16

/-- Modelled from the spec: total virtual size in words. -/
def VMEM_VIRTMEMSIZE : Nat := 1024

/-- Sentinel for "not resident" / "free frame".  The initialiser
`int fifo_current = -1;` in `mmanage.c` uses the same value. -/
def VOID_IDX : Int := -1

/-- Modelled from the spec: DIRTY bit of the `flags` bitset. -/
def PTF_DIRTY : Nat := 2

/-- Modelled from the spec: REFERENCED bit of the `flags` bitset. -/
def PTF_REF : Nat := 4

/-- Modelled from the spec: period N of the aging decay pass ("every N
accesses, N fixed"); the concrete value is immaterial to the claims. -/
def UPDATE_AGE_COUNT : Nat := 20

/-- `UCHAR_MAX` from `<limits.h>`. -/
def UCHAR_MAX : Nat := 255

/-- Page-replacement algorithm selector (`VMEM_ALGO_*`). -/
inductive Algo
  | fifo
  | clock
  | aging
deriving DecidableEq, Repr

/-- Observable side effects of one fault episode: swap-store page reads
(`fetch_page_from_pagefile`), swap-store page writes
(`store_page_to_pagefile`) and semaphore releases (`sem_post`). -/
inductive Event
  | fetch (p : Int)
  | store (p : Int)
  | semPost
deriving DecidableEq, Repr

/-- One page table entry (`struct pt_entry`): forward frame field,
flag bitset, 8-bit age counter, reserved access counter. -/
structure PTE where
  frame : Int
  flags : Nat
  age : Nat
  count : Nat
deriving DecidableEq, Repr

/-- The whole two-process system state: the shared segment
(`struct vmem_struct`: page table `entries`, reverse map `framepage`,
admin block fields, frame `data`), the manager-local static
`fifo_current`, the swap store (`pagefile.bin`, word-addressed at
`page * VMEM_PAGESIZE`), the counting semaphore and the event trace. -/
structure Sys where
  entries : Int → PTE
  framepage : Int → Int
  data : Int → Int
  swap : Int → Int
  size : Int
  next_alloc_idx : Int
  req_pageno : Int
  pf_count : Nat
  g_count : Nat
  page_rep_algo : Algo
  fifo_current : Int
  sem : Nat
  events : List Event

/-- Point update of one page table entry. -/
def setEntry (s : Sys) (p : Int) (e : PTE) : Sys :=
  { s with entries := fun q => if q = p then e else s.entries q }

/-- `vmem->pt.entries[p].frame = v`. -/
def setFrameF (s : Sys) (p v : Int) : Sys :=
  setEntry s p { s.entries p with frame := v }

/-- `vmem->pt.entries[p].flags = v`. -/
def setFlags (s : Sys) (p : Int) (v : Nat) : Sys :=
  setEntry s p { s.entries p with flags := v }

/-- `vmem->pt.entries[p].age = v`. -/
def setAge (s : Sys) (p : Int) (v : Nat) : Sys :=
  setEntry s p { s.entries p with age := v }

/-- `vmem->pt.framepage[f] = v`. -/
def setFramepage (s : Sys) (f v : Int) : Sys :=
  { s with framepage := fun g => if g = f then v else s.framepage g }

/-- `sem_post(local_sem)`: bump the counting semaphore, recorded in the
event trace. -/
def sem_post (s : Sys) : Sys :=
  { s with sem := s.sem + 1, events := s.events ++ [Event.semPost] }

/-- `store_page` of `mmanage.c` composed with `store_page_to_pagefile` of
`pagefile.c`: copy the `VMEM_PAGESIZE` words starting at frame offset
`next_alloc_idx * VMEM_PAGESIZE` to swap slot `pt_idx`.  The bound
assertions of `pagefile.c` on `pt_idx` are established at every call
site of the theorems below and are not duplicated here. -/
def store_page (s : Sys) (pt_idx : Int) : Sys :=
  { s with
    swap := fun j =>
      if pt_idx * (VMEM_PAGESIZE : Int) ≤ j ∧
          j < pt_idx * (VMEM_PAGESIZE : Int) + (VMEM_PAGESIZE : Int) then
        s.data (s.next_alloc_idx * (VMEM_PAGESIZE : Int) +
          (j - pt_idx * (VMEM_PAGESIZE : Int)))
      else s.swap j,
    events := s.events ++ [Event.store pt_idx] }

/-- `fetch_page` of `mmanage.c` composed with `fetch_page_from_pagefile`:
copy swap slot `pt_idx` into the `VMEM_PAGESIZE` words starting at
`entries[req_pageno].frame * VMEM_PAGESIZE`. -/
def fetch_page (s : Sys) (pt_idx : Int) : Sys :=
  { s with
    data := fun j =>
      if (s.entries s.req_pageno).frame * (VMEM_PAGESIZE : Int) ≤ j ∧
          j < (s.entries s.req_pageno).frame * (VMEM_PAGESIZE : Int) +
            (VMEM_PAGESIZE : Int) then
        s.swap (pt_idx * (VMEM_PAGESIZE : Int) +
          (j - (s.entries s.req_pageno).frame * (VMEM_PAGESIZE : Int)))
      else s.data j,
    events := s.events ++ [Event.fetch pt_idx] }

/-- The `for` loop of `find_free_frame`, scanning frames `i`, `i+1`, …
and breaking at the first free slot. -/
def find_free_from (s : Sys) (i : Nat) : Int :=
  if i < VMEM_NFRAMES then
    (if s.framepage (i : Int) = VOID_IDX then (i : Int) else find_free_from s (i + 1))
  else VOID_IDX
termination_by VMEM_NFRAMES - i

/-- `find_free_frame`: smallest free frame index, `VOID_IDX` when all
frames are occupied. -/
def find_free_frame (s : Sys) : Int := find_free_from s 0

/-- `fifo_current == (VMEM_NFRAMES-1) ? 0 : fifo_current + 1`. -/
def advanceCursor (c : Int) : Int :=
  if c = (VMEM_NFRAMES : Int) - 1 then 0 else c + 1

/-- `fifo_current = fc; vmem->adm.next_alloc_idx = fifo_current;` — the
cursor motion FIFO and CLOCK both perform. -/
def cursorSet (s : Sys) (fc : Int) : Sys :=
  { s with fifo_current := fc, next_alloc_idx := fc }

/-- The write-back/clear tail every `find_remove_*` policy executes on
its victim page `element` (verbatim in each of the three C functions):
`if (flags & PTF_DIRTY) == PTF_DIRTY` write the page back, then
`entries[element].frame = VOID_IDX`. -/
def evict_finish (s : Sys) (element : Int) : Sys :=
  let s := if (s.entries element).flags &&& PTF_DIRTY = PTF_DIRTY then
      store_page s element
    else s
  setFrameF s element VOID_IDX

/-- `find_remove_fifo`: advance the rotating cursor, abort on the two
`TEST_AND_EXIT` range checks (the second one checks against
`VMEM_NPAGES`, exactly as the source does), then run the write-back /
clear tail on the pointed-to frame's page. -/
def find_remove_fifo (s : Sys) : Except Sys (Sys × Int) :=
  let fc := advanceCursor s.fifo_current
  let s := cursorSet s fc
  if fc < 0 then .error s
  else if (VMEM_NPAGES : Int) ≤ fc then .error s
  else .ok (evict_finish s (s.framepage fc), fc)

/-- The scanning `for` loop of `find_remove_aging`: running minimum with
`<=`, so a later frame with an equal age overwrites the stored index. -/
def aging_scan (s : Sys) (i : Nat) (acc : Nat) (best : Int) : Nat × Int :=
  if i < VMEM_NFRAMES then
    if (s.entries (s.framepage (i : Int))).age ≤ acc then
      aging_scan s (i + 1) (s.entries (s.framepage (i : Int))).age (i : Int)
    else
      aging_scan s (i + 1) acc best
  else (acc, best)
termination_by VMEM_NFRAMES - i

/-- `find_remove_aging`: pick the occupied frame of minimal age (ties:
last scanned), fall back to frame 0 if no frame qualified, write the
victim back when dirty, clear its frame field, reset its age to `0x80`. -/
def find_remove_aging (s : Sys) : Sys × Int :=
  let s := { s with next_alloc_idx := VOID_IDX }
  let best := (aging_scan s 0 UCHAR_MAX VOID_IDX).2
  let nai := if best = VOID_IDX then 0 else best
  let s := { s with next_alloc_idx := nai }
  let element := s.framepage nai
  (setAge (evict_finish s element) element 0x80, nai)

/-- The `for(;;)` body of `find_remove_clock` with explicit fuel: advance
the cursor; a pointed-to page with REFERENCED set gets the bit cleared
(`flags ^ PTF_REF`) and the loop retries; otherwise the pointed-to frame
is the victim (dirty write-back, frame field cleared). -/
def clock_loop (s : Sys) : Nat → Option (Sys × Int)
  | 0 => none
  | fuel + 1 =>
    let fc := advanceCursor s.fifo_current
    let s := cursorSet s fc
    let element := s.framepage fc
    if (s.entries element).flags &&& PTF_REF = PTF_REF then
      clock_loop (setFlags s element ((s.entries element).flags ^^^ PTF_REF)) fuel
    else
      some (evict_finish s element, fc)

/-- `find_remove_clock`; fuel `VMEM_NFRAMES + 1` is proved sufficient
below (one full lap clears every REFERENCED bit, the next visit stops). -/
def find_remove_clock (s : Sys) : Option (Sys × Int) :=
  clock_loop s (VMEM_NFRAMES + 1)

/-- `find_remove_frame`: dispatch on the active replacement algorithm. -/
def find_remove_frame (s : Sys) : Except Sys (Sys × Int) :=
  match s.page_rep_algo with
  | .fifo => find_remove_fifo s
  | .clock =>
    match find_remove_clock s with
    | some r => .ok r
    | none => .error s
  | .aging => .ok (find_remove_aging s)

/-- Common tail of `allocate_page`: `framepage[idx] = req_pageno`, the two
`TEST_AND_EXIT` checks on `framepage[idx]`, `entries[req].frame = idx`,
`sem_post`. -/
def alloc_finish (s : Sys) (idx : Int) : Except Sys Sys :=
  let s := setFramepage s idx s.req_pageno
  if s.framepage idx < 0 then .error s
  else if (VMEM_NPAGES : Int) ≤ s.framepage idx then .error s
  else .ok (sem_post (setFrameF s s.req_pageno idx))

/-- Eviction branch of `allocate_page` after the policy returned victim
frame `idx1`: the two `TEST_AND_EXIT` range checks, then
`entries[req].frame = idx1` followed by `fetch_page(req)` and the common
finish. -/
def alloc_evict_tail (s1 : Sys) (idx1 : Int) : Except Sys Sys :=
  if idx1 < 0 then .error s1
  else if (VMEM_NFRAMES : Int) ≤ idx1 then .error s1
  else
    let s2 := setFrameF s1 s1.req_pageno idx1
    alloc_finish (fetch_page s2 s2.req_pageno) idx1

/-- `allocate_page`: find a free frame, count the fault, evict via the
active policy when none is free, point the requested page at the frame,
fetch its contents from swap in the eviction branch only, then finish. -/
def allocate_page (s : Sys) : Except Sys Sys :=
  let idx := find_free_frame s
  let s := { s with pf_count := s.pf_count + 1 }
  if idx = VOID_IDX then
    match find_remove_frame s with
    | .error e => .error e
    | .ok (s1, idx1) => alloc_evict_tail s1 idx1
  else alloc_finish s idx

/-- The client's fault protocol: `kill(mmanage_pid, SIGUSR1)` runs
`allocate_page` synchronously in the manager, then `sem_wait` consumes
the `sem_post` it performed. -/
def handle_fault (s : Sys) : Except Sys Sys :=
  match allocate_page s with
  | .error e => .error e
  | .ok s1 => .ok { s1 with sem := s1.sem - 1 }

/-- `address & (VMEM_PAGESIZE - 1)` of `vmaccess.c`, on two's-complement
ints. -/
def offsetOfAddr (address : Int) : Int :=
  Int.land address ((VMEM_PAGESIZE : Int) - 1)

/-- `(address & (~(VMEM_PAGESIZE - 1))) / VMEM_PAGESIZE` of `vmaccess.c`:
clear the low bits on the two's-complement representation, then divide
with C truncating division (`Int.tdiv`). -/
def pageOfAddr (address : Int) : Int :=
  Int.tdiv (Int.land address (Int.lnot ((VMEM_PAGESIZE : Int) - 1)))
    (VMEM_PAGESIZE : Int)

/-- Body of the aging pass for one entry: halve the age; if REFERENCED
was set, set the top bit of the (8-bit) age and clear REFERENCED.
`age | (~CHAR_MAX)` stored into the 8-bit field equals `age ||| 0x80`. -/
def agePass (e : PTE) : PTE :=
  let e1 : PTE := { e with age := e.age / 2 }
  if e.flags &&& PTF_REF = PTF_REF then
    { e1 with age := e1.age ||| 0x80, flags := e1.flags ^^^ PTF_REF }
  else e1

/-- The frame loop of `update_age_reset_ref`: every occupied frame's page
gets `agePass` applied, unoccupied frames (`VOID_IDX`) are skipped. -/
def age_pass_loop (s : Sys) (i : Nat) : Sys :=
  if i < VMEM_NFRAMES then
    let pn := s.framepage (i : Int)
    age_pass_loop (if pn = VOID_IDX then s else setEntry s pn (agePass (s.entries pn))) (i + 1)
  else s
termination_by VMEM_NFRAMES - i

/-- `update_age_reset_ref`: run the decay pass when the access counter is
a multiple of `UPDATE_AGE_COUNT`. -/
def update_age_reset_ref (s : Sys) : Sys :=
  if s.g_count % UPDATE_AGE_COUNT = 0 then age_pass_loop s 0 else s

/-- `vmem_read`: decompose the address, publish `req_pageno` (the source
does this *before* the bounds checks), abort on an out-of-range page
number, set REFERENCED, fault if not resident, then read the word at the
physical offset.  For the in-range physical offset `frame*PAGESIZE` is a
multiple of the power-of-two `PAGESIZE`, so the C `|` of the source
equals the `+` used here.  The literal bound 128 is the source's. -/
def vmem_read (s : Sys) (address : Int) : Except Sys (Sys × Int) :=
  let offset := offsetOfAddr address
  let page_index := pageOfAddr address
  let frame := (s.entries page_index).frame
  let s := { s with req_pageno := page_index }
  if page_index < 0 then .error s
  else if (VMEM_NPAGES : Int) ≤ page_index then .error s
  else
    let s := setFlags s page_index (PTF_REF ||| (s.entries page_index).flags)
    match (if frame = VOID_IDX then handle_fault s else .ok s) with
    | .error e => .error e
    | .ok s =>
      let page := (s.entries page_index).frame * (VMEM_PAGESIZE : Int) + offset
      let holder := s.data page
      if page < 0 then .error s
      else if (128 : Int) ≤ page then .error s
      else
        let s := { s with g_count := s.g_count + 1 }
        let s := if s.page_rep_algo = Algo.aging then update_age_reset_ref s else s
        .ok (s, holder)

/-- `vmem_write`: like `vmem_read`, but the bounds checks precede the
`req_pageno` publication, DIRTY is set together with REFERENCED, and the
word at the physical offset is written. -/
def vmem_write (s : Sys) (address : Int) (d : Int) : Except Sys Sys :=
  let offset := offsetOfAddr address
  let page_index := pageOfAddr address
  if page_index < 0 then .error s
  else if (VMEM_NPAGES : Int) ≤ page_index then .error s
  else
    let s := { s with req_pageno := page_index }
    let frame := (s.entries page_index).frame
    let s := setFlags s page_index (PTF_DIRTY ||| (PTF_REF ||| (s.entries page_index).flags))
    match (if frame = VOID_IDX then handle_fault s else .ok s) with
    | .error e => .error e
    | .ok s =>
      let page := (s.entries page_index).frame * (VMEM_PAGESIZE : Int) + offset
      if page < 0 then .error s
      else if (128 : Int) ≤ page then .error s
      else
        let s := { s with data := fun j => if j = page then d else s.data j }
        let s := { s with g_count := s.g_count + 1 }
        let s := if s.page_rep_algo = Algo.aging then update_age_reset_ref s else s
        .ok s

/-- A fresh `shmget(IPC_CREAT)` segment is zero-filled; this is the state
`vmem_init` of `mmanage.c` starts from.  `fifo_current` carries its C
static initialiser `-1`; the named semaphore is created with value 0. -/
def zeroPTE : PTE := { frame := 0, flags := 0, age := 0, count := 0 }

/-- The zero-filled shared segment together with the given swap-store
contents (the pagefile is pre-filled by `init_pagefile`). -/
def zeroSys (swap0 : Int → Int) : Sys where
  entries := fun _ => zeroPTE
  framepage := fun _ => 0
  data := fun _ => 0
  swap := swap0
  size := 0
  next_alloc_idx := 0
  req_pageno := 0
  pf_count := 0
  g_count := 0
  page_rep_algo := .fifo
  fifo_current := -1
  sem := 0
  events := []

/-- The per-entry initialisation of the `vmem_init` page-table loop. -/
def initPTE : PTE := { frame := VOID_IDX, flags := 0, age := 0x80, count := 0 }

/-- First `for` loop of `vmem_init`. -/
def pt_init_loop (s : Sys) (i : Nat) : Sys :=
  if i < VMEM_NPAGES then pt_init_loop (setEntry s (i : Int) initPTE) (i + 1) else s
termination_by VMEM_NPAGES - i

/-- Second `for` loop of `vmem_init`. -/
def fp_init_loop (s : Sys) (i : Nat) : Sys :=
  if i < VMEM_NFRAMES then fp_init_loop (setFramepage s (i : Int) VOID_IDX) (i + 1) else s
termination_by VMEM_NFRAMES - i

/-- `vmem_init` of `mmanage.c`: set the admin fields, initialise every
page table entry and every frame slot.  (`shm_id` and `mmanage_pid` are
OS handles outside the model.) -/
def vmem_init (swap0 : Int → Int) : Sys :=
  let s := zeroSys swap0
  let s := { s with size := (VMEM_VIRTMEMSIZE : Int), next_alloc_idx := 0, req_pageno := 0 }
  fp_init_loop (pt_init_loop s 0) 0

/-- A client operation: one `vmem_read` or one `vmem_write` call. -/
inductive Op
  | read (a : Int)
  | write (a : Int) (v : Int)
deriving DecidableEq, Repr

/-- Run one operation, keeping only the state. -/
def doOp (s : Sys) : Op → Except Sys Sys
  | .read a =>
    match vmem_read s a with
    | .ok (s', _) => .ok s'
    | .error e => .error e
  | .write a v => vmem_write s a v

/-- Run a sequence of operations. -/
def runOps (s : Sys) : List Op → Except Sys Sys
  | [] => .ok s
  | op :: rest =>
    match doOp s op with
    | .ok s' => runOps s' rest
    | .error e => .error e

/-- `true` iff running `ops` from `s` keeps page `p` resident in frame
`f` after every single operation (no operation evicts it). -/
def keepsResident (p f : Int) : Sys → List Op → Bool
  | _, [] => true
  | s, op :: rest =>
    match doOp s op with
    | .ok s' => ((s'.entries p).frame == f) && keepsResident p f s' rest
    | .error _ => false

/-- The mutual-consistency invariant of the page table and the frame
table, plus the range of the FIFO/CLOCK cursor: every resident page's
frame is in range and the frame points back at the page; every occupied
frame's page is in range and points back at the frame. -/
def Inv (s : Sys) : Prop :=
  (∀ p : Int, 0 ≤ p → p < (VMEM_NPAGES : Int) →
    (s.entries p).frame = VOID_IDX ∨
      (0 ≤ (s.entries p).frame ∧ (s.entries p).frame < (VMEM_NFRAMES : Int) ∧
        s.framepage ((s.entries p).frame) = p)) ∧
  (∀ f : Int, 0 ≤ f → f < (VMEM_NFRAMES : Int) →
    s.framepage f = VOID_IDX ∨
      (0 ≤ s.framepage f ∧ s.framepage f < (VMEM_NPAGES : Int) ∧
        (s.entries (s.framepage f)).frame = f)) ∧
  (-1 ≤ s.fifo_current ∧ s.fifo_current < (VMEM_NFRAMES : Int))

/-- Claim C1's consistency statement: every occupied frame slot `f`
(holding page `framepage f`) is referenced by exactly one page table
entry, namely entry `framepage f`. -/
def consistent (s : Sys) : Prop :=
  ∀ f : Int, 0 ≤ f → f < (VMEM_NFRAMES : Int) → s.framepage f ≠ VOID_IDX →
    0 ≤ s.framepage f ∧ s.framepage f < (VMEM_NPAGES : Int) ∧
      ∀ p : Int, 0 ≤ p → p < (VMEM_NPAGES : Int) →
        ((s.entries p).frame = f ↔ p = s.framepage f)

/-! ### Bit-twiddling facts used to relate the C bit operations to
arithmetic. -/

theorem xor_ref_and_ref (fl : Nat) : (fl ^^^ PTF_REF) &&& PTF_REF = (fl &&& PTF_REF) ^^^ PTF_REF := by
  rw [Nat.and_xor_distrib_right]
  rfl

theorem xor_ref_and_dirty (fl : Nat) : (fl ^^^ PTF_REF) &&& PTF_DIRTY = fl &&& PTF_DIRTY := by
  rw [Nat.and_xor_distrib_right]
  show fl &&& PTF_DIRTY ^^^ 0 = fl &&& PTF_DIRTY
  exact Nat.xor_zero _

theorem xor_ref_clears_ref {fl : Nat} (h : fl &&& PTF_REF = PTF_REF) :
    (fl ^^^ PTF_REF) &&& PTF_REF = 0 := by
  rw [xor_ref_and_ref, h]
  rfl

theorem and_four_cases (fl : Nat) : fl &&& 4 = 0 ∨ fl &&& 4 = 4 := by
  have h := Nat.and_two_pow fl 2
  norm_num at h
  cases Nat.testBit fl 2 <;> simp_all

theorem or_ref_sets_ref (fl : Nat) : (PTF_REF ||| fl) &&& PTF_REF = PTF_REF := by
  show (4 ||| fl) &&& 4 = 4
  rw [Nat.and_distrib_right]
  rcases and_four_cases fl with h | h <;> rw [h] <;> rfl

theorem lor_128_eq_add {x : Nat} (h : x < 128) : x ||| 128 = x + 128 := by
  have h2 := @Nat.mul_add_lt_is_or 7 x h 1
  norm_num at h2
  rw [Nat.lor_comm]
  omega

theorem lor_128_lt_256 {x : Nat} (h : x < 128) : x ||| 128 < 256 := by
  rw [lor_128_eq_add h]
  omega

/-- Aligned base: for `0 ≤ f` and `0 ≤ o < VMEM_PAGESIZE`, the C
expression `f * VMEM_PAGESIZE | o` equals `f * VMEM_PAGESIZE + o`. -/
theorem mul_pagesize_lor (f o : Nat) (h : o < VMEM_PAGESIZE) :
    (f * VMEM_PAGESIZE) ||| o = f * VMEM_PAGESIZE + o := by
  have h8 : VMEM_PAGESIZE = 2 ^ 3 := rfl
  have := @Nat.mul_add_lt_is_or 3 o (by omega : o < 2 ^ 3) f
  rw [h8, Nat.mul_comm]
  omega

theorem ldiff_seven (n : Nat) : Nat.ldiff n 7 = 8 * (n / 8) := by
  apply Nat.eq_of_testBit_eq
  intro i
  rw [Nat.testBit_ldiff]
  have h8 : (8 : Nat) = 2 ^ 3 := by norm_num
  rw [h8, Nat.testBit_mul_pow_two]
  rcases Nat.lt_or_ge i 3 with h | h
  · have h7 : Nat.testBit 7 i = true := by interval_cases i <;> decide
    simp [h7, Nat.not_le_of_lt h]
  · have h7 : Nat.testBit 7 i = false := by
      have h2i : (7 : Nat) < 2 ^ i := by
        calc (7 : Nat) < 2 ^ 3 := by norm_num
        _ ≤ 2 ^ i := Nat.pow_le_pow_right (by norm_num) h
      exact Nat.testBit_lt_two_pow h2i
    have hdiv : Nat.testBit (n / 2 ^ 3) (i - 3) = Nat.testBit n i := by
      rw [Nat.testBit_to_div_mod, Nat.testBit_to_div_mod, Nat.div_div_eq_div_mul, ← Nat.pow_add]
      have h3 : 3 + (i - 3) = i := by omega
      rw [h3]
    simp [h7, h]
    rw [h8, hdiv]

/-- On non-negative addresses the C offset computation is `a % 8`. -/
theorem offsetOfAddr_ofNat (n : Nat) : offsetOfAddr (Int.ofNat n) = Int.ofNat (n % 8) := by
  show Int.land (Int.ofNat n) (Int.ofNat 7) = Int.ofNat (n % 8)
  have : Int.land (Int.ofNat n) (Int.ofNat 7) = Int.ofNat (n &&& 7) := rfl
  rw [this]
  congr 1
  have := Nat.and_pow_two_sub_one_eq_mod n 3
  norm_num at this
  exact this

/-- On non-negative addresses the C page computation is `a / 8`. -/
theorem pageOfAddr_ofNat (n : Nat) : pageOfAddr (Int.ofNat n) = Int.ofNat (n / 8) := by
  show Int.tdiv (Int.land (Int.ofNat n) (Int.lnot (Int.ofNat 7))) (Int.ofNat 8) = Int.ofNat (n / 8)
  have h1 : Int.lnot (Int.ofNat 7) = Int.negSucc 7 := rfl
  have h2 : Int.land (Int.ofNat n) (Int.negSucc 7) = Int.ofNat (Nat.ldiff n 7) := rfl
  rw [h1, h2, ldiff_seven]
  show Int.tdiv (Int.ofNat (8 * (n / 8))) (Int.ofNat 8) = Int.ofNat (n / 8)
  have h3 : Int.tdiv (Int.ofNat (8 * (n / 8))) (Int.ofNat 8) = Int.ofNat (8 * (n / 8) / 8) := rfl
  rw [h3]
  congr 1
  omega

/-! ### Basic characterisations: free-frame search and cursor motion. -/

theorem find_free_from_spec (s : Sys) :
    ∀ n i, VMEM_NFRAMES - i = n →
      (find_free_from s i = VOID_IDX ∧
        ∀ f : Nat, i ≤ f → f < VMEM_NFRAMES → s.framepage (f : Int) ≠ VOID_IDX) ∨
      (∃ f : Nat, i ≤ f ∧ f < VMEM_NFRAMES ∧ find_free_from s i = (f : Int) ∧
        s.framepage (f : Int) = VOID_IDX ∧
        ∀ g : Nat, i ≤ g → g < f → s.framepage (g : Int) ≠ VOID_IDX) := by
  intro n
  induction n with
  | zero =>
    intro i hi
    left
    constructor
    · rw [find_free_from]
      have hge : ¬ i < VMEM_NFRAMES := by omega
      simp [hge]
    · intro f hf1 hf2
      exact absurd hf2 (by omega)
  | succ n ih =>
    intro i hi
    have hlt : i < VMEM_NFRAMES := by omega
    rw [find_free_from]
    simp only [hlt, if_true]
    by_cases hfree : s.framepage (i : Int) = VOID_IDX
    · right
      exact ⟨i, le_refl i, hlt, by simp [hfree], hfree, fun g hg1 hg2 => absurd hg2 (by omega)⟩
    · simp only [hfree, if_false]
      rcases ih (i + 1) (by omega) with ⟨heq, hall⟩ | ⟨f, hf1, hf2, hf3, hf4, hf5⟩
      · left
        refine ⟨heq, fun f hf1 hf2 => ?_⟩
        rcases Nat.eq_or_lt_of_le hf1 with rfl | hlt'
        · exact hfree
        · exact hall f hlt' hf2
      · right
        refine ⟨f, by omega, hf2, hf3, hf4, fun g hg1 hg2 => ?_⟩
        rcases Nat.eq_or_lt_of_le hg1 with rfl | hlt'
        · exact hfree
        · exact hf5 g hlt' hg2

theorem find_free_frame_none {s : Sys} (h : find_free_frame s = VOID_IDX) :
    ∀ f : Int, 0 ≤ f → f < (VMEM_NFRAMES : Int) → s.framepage f ≠ VOID_IDX := by
  intro f hf1 hf2
  rcases find_free_from_spec s VMEM_NFRAMES 0 rfl with ⟨_, hall⟩ | ⟨g, _, _, hg3, _, _⟩
  · have hlt : f.toNat < VMEM_NFRAMES := by
      simp only [VMEM_NFRAMES] at hf2 ⊢
      omega
    have hf := hall f.toNat (Nat.zero_le _) hlt
    rwa [Int.toNat_of_nonneg hf1] at hf
  · exfalso
    rw [find_free_frame] at h
    rw [h] at hg3
    simp only [VOID_IDX] at hg3
    omega

theorem find_free_frame_some {s : Sys} (h : find_free_frame s ≠ VOID_IDX) :
    ∃ f : Nat, f < VMEM_NFRAMES ∧ find_free_frame s = (f : Int) ∧
      s.framepage (f : Int) = VOID_IDX ∧
      ∀ g : Nat, g < f → s.framepage (g : Int) ≠ VOID_IDX := by
  rcases find_free_from_spec s VMEM_NFRAMES 0 rfl with ⟨heq, _⟩ | ⟨f, _, hf2, hf3, hf4, hf5⟩
  · exact absurd heq h
  · exact ⟨f, hf2, hf3, hf4, fun g hg => hf5 g (Nat.zero_le g) hg⟩

theorem advanceCursor_range {c : Int} (h1 : -1 ≤ c) (h2 : c < (VMEM_NFRAMES : Int)) :
    0 ≤ advanceCursor c ∧ advanceCursor c < (VMEM_NFRAMES : Int) := by
  unfold advanceCursor
  split <;> constructor <;> simp [VMEM_NFRAMES] at * <;> omega

/-- Extract the state carried by a fatal abort (`.error`). -/
def errState (d : Sys) : {α : Type} → Except Sys α → Sys
  | _, .error e => e
  | _, .ok _ => d

/-- Extract the success state of an `Except Sys Sys`. -/
def okState (d : Sys) : Except Sys Sys → Sys
  | .ok s => s
  | .error _ => d

/-- Page `p` has its REFERENCED bit set. -/
def refSet (s : Sys) (p : Int) : Prop := (s.entries p).flags &&& PTF_REF = PTF_REF

/-- Page `p` has its DIRTY bit set. -/
def dirtySet (s : Sys) (p : Int) : Prop := (s.entries p).flags &&& PTF_DIRTY = PTF_DIRTY

instance (s : Sys) (p : Int) : Decidable (refSet s p) :=
  inferInstanceAs (Decidable (_ = _))

instance (s : Sys) (p : Int) : Decidable (dirtySet s p) :=
  inferInstanceAs (Decidable (_ = _))

/-- Common post-state description of the three `find_remove_*` policies
returning victim frame `idx`: the victim page `framepage idx` loses its
forward frame field (everything else in the forward map is unchanged),
`framepage` and `data` are untouched, DIRTY bits are preserved, and the
victim is written back to its swap slot exactly when it was dirty. -/
structure EvictOk (s s' : Sys) (idx : Int) : Prop where
  idx_nonneg : 0 ≤ idx
  idx_lt : idx < (VMEM_NFRAMES : Int)
  framepage_eq : s'.framepage = s.framepage
  data_eq : s'.data = s.data
  frame_eq : ∀ q : Int,
    (s'.entries q).frame = if q = s.framepage idx then VOID_IDX else (s.entries q).frame
  dirty_eq : ∀ q : Int, (s'.entries q).flags &&& PTF_DIRTY = (s.entries q).flags &&& PTF_DIRTY
  cursor_range : -1 ≤ s'.fifo_current ∧ s'.fifo_current < (VMEM_NFRAMES : Int)
  req_eq : s'.req_pageno = s.req_pageno
  pf_eq : s'.pf_count = s.pf_count
  g_eq : s'.g_count = s.g_count
  algo_eq : s'.page_rep_algo = s.page_rep_algo
  sem_eq : s'.sem = s.sem
  wb_dirty : dirtySet s (s.framepage idx) →
    s'.events = s.events ++ [Event.store (s.framepage idx)] ∧
    (∀ j : Int, s.framepage idx * (VMEM_PAGESIZE : Int) ≤ j →
      j < s.framepage idx * (VMEM_PAGESIZE : Int) + (VMEM_PAGESIZE : Int) →
      s'.swap j = s.data (idx * (VMEM_PAGESIZE : Int) +
        (j - s.framepage idx * (VMEM_PAGESIZE : Int)))) ∧
    (∀ j : Int, (j < s.framepage idx * (VMEM_PAGESIZE : Int) ∨
        s.framepage idx * (VMEM_PAGESIZE : Int) + (VMEM_PAGESIZE : Int) ≤ j) →
      s'.swap j = s.swap j)
  wb_clean : ¬ dirtySet s (s.framepage idx) → s'.events = s.events ∧ s'.swap = s.swap

theorem evict_finish_eq_dirty {s : Sys} {el : Int} (hd : dirtySet s el) :
    evict_finish s el = setFrameF (store_page s el) el VOID_IDX := by
  have hd' : (s.entries el).flags &&& PTF_DIRTY = PTF_DIRTY := hd
  unfold evict_finish
  simp only [hd', if_true]

theorem evict_finish_eq_clean {s : Sys} {el : Int} (hd : ¬ dirtySet s el) :
    evict_finish s el = setFrameF s el VOID_IDX := by
  have hd' : ¬ ((s.entries el).flags &&& PTF_DIRTY = PTF_DIRTY) := hd
  unfold evict_finish
  simp only [hd', if_false]

theorem evict_finish_entries (s : Sys) (el q : Int) :
    (evict_finish s el).entries q =
      if q = el then { s.entries el with frame := VOID_IDX } else s.entries q := by
  by_cases hd : dirtySet s el
  · rw [evict_finish_eq_dirty hd]
    rfl
  · rw [evict_finish_eq_clean hd]
    rfl

theorem evict_finish_framepage (s : Sys) (el : Int) :
    (evict_finish s el).framepage = s.framepage := by
  by_cases hd : dirtySet s el
  · rw [evict_finish_eq_dirty hd]; rfl
  · rw [evict_finish_eq_clean hd]; rfl

theorem evict_finish_data (s : Sys) (el : Int) : (evict_finish s el).data = s.data := by
  by_cases hd : dirtySet s el
  · rw [evict_finish_eq_dirty hd]; rfl
  · rw [evict_finish_eq_clean hd]; rfl

theorem evict_finish_admin (s : Sys) (el : Int) :
    (evict_finish s el).req_pageno = s.req_pageno ∧
    (evict_finish s el).pf_count = s.pf_count ∧
    (evict_finish s el).g_count = s.g_count ∧
    (evict_finish s el).page_rep_algo = s.page_rep_algo ∧
    (evict_finish s el).sem = s.sem ∧
    (evict_finish s el).fifo_current = s.fifo_current ∧
    (evict_finish s el).next_alloc_idx = s.next_alloc_idx ∧
    (evict_finish s el).size = s.size := by
  by_cases hd : dirtySet s el
  · rw [evict_finish_eq_dirty hd]
    exact ⟨rfl, rfl, rfl, rfl, rfl, rfl, rfl, rfl⟩
  · rw [evict_finish_eq_clean hd]
    exact ⟨rfl, rfl, rfl, rfl, rfl, rfl, rfl, rfl⟩

theorem evict_finish_swap_events_dirty {s : Sys} {el : Int} (hd : dirtySet s el) :
    (evict_finish s el).events = s.events ++ [Event.store el] ∧
    (evict_finish s el).swap = fun j =>
      if el * (VMEM_PAGESIZE : Int) ≤ j ∧ j < el * (VMEM_PAGESIZE : Int) + (VMEM_PAGESIZE : Int)
      then s.data (s.next_alloc_idx * (VMEM_PAGESIZE : Int) + (j - el * (VMEM_PAGESIZE : Int)))
      else s.swap j := by
  rw [evict_finish_eq_dirty hd]
  exact ⟨rfl, rfl⟩

theorem evict_finish_swap_events_clean {s : Sys} {el : Int} (hd : ¬ dirtySet s el) :
    (evict_finish s el).events = s.events ∧ (evict_finish s el).swap = s.swap := by
  rw [evict_finish_eq_clean hd]
  exact ⟨rfl, rfl⟩

/-- The write-back/clear tail run in any post-cursor-motion state `t`
that agrees with the pre-state `s` on everything an eviction observes
produces an `EvictOk` transition from `s`.  (CLOCK reaches the tail with
some REFERENCED bits already cleared, hence only frame fields and DIRTY
bits of `t` are required to agree with `s`.) -/
theorem evict_finish_evictOk (s t : Sys) (idx : Int)
    (ht_frame : ∀ q : Int, (t.entries q).frame = (s.entries q).frame)
    (ht_dirty : ∀ q : Int, (t.entries q).flags &&& PTF_DIRTY = (s.entries q).flags &&& PTF_DIRTY)
    (ht_fp : t.framepage = s.framepage)
    (ht_data : t.data = s.data) (ht_swap : t.swap = s.swap) (ht_ev : t.events = s.events)
    (ht_req : t.req_pageno = s.req_pageno) (ht_pf : t.pf_count = s.pf_count)
    (ht_g : t.g_count = s.g_count) (ht_algo : t.page_rep_algo = s.page_rep_algo)
    (ht_sem : t.sem = s.sem)
    (ht_cur : -1 ≤ t.fifo_current ∧ t.fifo_current < (VMEM_NFRAMES : Int))
    (ht_nai : t.next_alloc_idx = idx)
    (h1 : 0 ≤ idx) (h2 : idx < (VMEM_NFRAMES : Int)) :
    EvictOk s (evict_finish t (s.framepage idx)) idx := by
  have hel : t.framepage idx = s.framepage idx := by rw [ht_fp]
  have hdirty_iff : dirtySet t (s.framepage idx) ↔ dirtySet s (s.framepage idx) := by
    unfold dirtySet
    rw [ht_dirty]
  obtain ⟨ha1, ha2, ha3, ha4, ha5, ha6, ha7, ha8⟩ := evict_finish_admin t (s.framepage idx)
  refine ⟨h1, h2, ?_, ?_, ?_, ?_, ?_, ?_, ?_, ?_, ?_, ?_, ?_, ?_⟩
  · rw [evict_finish_framepage, ht_fp]
  · rw [evict_finish_data, ht_data]
  · intro q
    rw [evict_finish_entries]
    by_cases hq : q = s.framepage idx
    · simp only [hq, if_true, if_pos rfl]
    · simp only [hq, if_false, ht_frame q, if_neg hq]
  · intro q
    rw [evict_finish_entries]
    by_cases hq : q = s.framepage idx
    · simp only [hq, if_pos rfl]
      exact ht_dirty _
    · simp only [if_neg hq]
      exact ht_dirty q
  · rw [ha6]
    exact ⟨ht_cur.1, ht_cur.2⟩
  · rw [ha1, ht_req]
  · rw [ha2, ht_pf]
  · rw [ha3, ht_g]
  · rw [ha4, ht_algo]
  · rw [ha5, ht_sem]
  · intro hd
    obtain ⟨he, hs⟩ := evict_finish_swap_events_dirty (hdirty_iff.mpr hd)
    refine ⟨by rw [he, ht_ev], ?_, ?_⟩
    · intro j hj1 hj2
      have hc : s.framepage idx * (VMEM_PAGESIZE : Int) ≤ j ∧
          j < s.framepage idx * (VMEM_PAGESIZE : Int) + (VMEM_PAGESIZE : Int) := ⟨hj1, hj2⟩
      simp only [hs]
      rw [if_pos hc, ht_data, ht_nai]
    · intro j hj
      have hnot : ¬ (s.framepage idx * (VMEM_PAGESIZE : Int) ≤ j ∧
          j < s.framepage idx * (VMEM_PAGESIZE : Int) + (VMEM_PAGESIZE : Int)) := by
        rcases hj with hj | hj
        · intro hc
          omega
        · intro hc
          omega
      simp only [hs]
      rw [if_neg hnot, ht_swap]
  · intro hd
    obtain ⟨he, hs⟩ := evict_finish_swap_events_clean (fun hc => hd (hdirty_iff.mp hc))
    exact ⟨by rw [he, ht_ev], by rw [hs, ht_swap]⟩

theorem find_remove_fifo_spec (s : Sys)
    (hcur : -1 ≤ s.fifo_current ∧ s.fifo_current < (VMEM_NFRAMES : Int)) :
    ∃ s', find_remove_fifo s = .ok (s', advanceCursor s.fifo_current) ∧
      EvictOk s s' (advanceCursor s.fifo_current) := by
  obtain ⟨hr1, hr2⟩ := advanceCursor_range hcur.1 hcur.2
  have h0 : ¬ (advanceCursor s.fifo_current < 0) := not_lt.mpr hr1
  have hnp : ¬ ((VMEM_NPAGES : Int) ≤ advanceCursor s.fifo_current) := by
    simp only [VMEM_NFRAMES, VMEM_NPAGES] at *
    omega
  have key : find_remove_fifo s =
      .ok (evict_finish (cursorSet s (advanceCursor s.fifo_current))
        (s.framepage (advanceCursor s.fifo_current)), advanceCursor s.fifo_current) := by
    show (if advanceCursor s.fifo_current < 0 then
        Except.error (cursorSet s (advanceCursor s.fifo_current))
      else if (VMEM_NPAGES : Int) ≤ advanceCursor s.fifo_current then
        Except.error (cursorSet s (advanceCursor s.fifo_current))
      else Except.ok (evict_finish (cursorSet s (advanceCursor s.fifo_current))
        ((cursorSet s (advanceCursor s.fifo_current)).framepage (advanceCursor s.fifo_current)),
        advanceCursor s.fifo_current)) = _
    rw [if_neg h0, if_neg hnp]
    rfl
  refine ⟨_, key, evict_finish_evictOk s _ _ (fun q => rfl) (fun q => rfl) rfl rfl rfl rfl rfl
    rfl rfl rfl rfl ⟨?_, ?_⟩ rfl hr1 hr2⟩
  · exact le_trans (by norm_num) hr1
  · exact hr2

/-- Age of the page occupying frame `f` (what the aging scan compares). -/
def ageAt (s : Sys) (f : Nat) : Nat := (s.entries (s.framepage (f : Int))).age

theorem aging_scan_spec (s : Sys) :
    ∀ n i acc best, VMEM_NFRAMES - i = n →
      (aging_scan s i acc best).1 ≤ acc ∧
      (∀ f : Nat, i ≤ f → f < VMEM_NFRAMES → (aging_scan s i acc best).1 ≤ ageAt s f) ∧
      (((aging_scan s i acc best).1 = acc ∧ (aging_scan s i acc best).2 = best ∧
        (∀ g : Nat, i ≤ g → g < VMEM_NFRAMES → acc < ageAt s g)) ∨
       (∃ f : Nat, i ≤ f ∧ f < VMEM_NFRAMES ∧ (aging_scan s i acc best).2 = (f : Int) ∧
         ageAt s f = (aging_scan s i acc best).1 ∧
         (∀ g : Nat, f < g → g < VMEM_NFRAMES → (aging_scan s i acc best).1 < ageAt s g))) := by
  intro n
  induction n with
  | zero =>
    intro i acc best hi
    have hge : ¬ i < VMEM_NFRAMES := by omega
    rw [aging_scan, if_neg hge]
    refine ⟨le_refl acc, fun f hf1 hf2 => absurd hf2 (by omega), Or.inl ⟨rfl, rfl, ?_⟩⟩
    intro g hg1 hg2
    exact absurd hg2 (by omega)
  | succ n ih =>
    intro i acc best hi
    have hlt : i < VMEM_NFRAMES := by omega
    rw [aging_scan, if_pos hlt]
    have hage : (s.entries (s.framepage (i : Int))).age = ageAt s i := rfl
    by_cases hle : (s.entries (s.framepage (i : Int))).age ≤ acc
    · rw [if_pos hle]
      obtain ⟨ih1, ih2, ih3⟩ := ih (i + 1) (s.entries (s.framepage (i : Int))).age (i : Int)
        (by omega)
      refine ⟨le_trans ih1 hle, ?_, ?_⟩
      · intro f hf1 hf2
        rcases Nat.eq_or_lt_of_le hf1 with rfl | hlt'
        · rw [← hage]
          exact ih1
        · exact ih2 f hlt' hf2
      · rcases ih3 with ⟨h1, h2, h3⟩ | ⟨f, hf1, hf2, hf3, hf4, hf5⟩
        · right
          refine ⟨i, le_refl i, hlt, h2, h1.symm, ?_⟩
          intro g hg1 hg2
          exact lt_of_le_of_lt (le_of_eq h1) (h3 g (by omega) hg2)
        · right
          exact ⟨f, by omega, hf2, hf3, hf4, hf5⟩
    · rw [if_neg hle]
      push_neg at hle
      obtain ⟨ih1, ih2, ih3⟩ := ih (i + 1) acc best (by omega)
      refine ⟨ih1, ?_, ?_⟩
      · intro f hf1 hf2
        rcases Nat.eq_or_lt_of_le hf1 with rfl | hlt'
        · rw [← hage]
          omega
        · exact ih2 f hlt' hf2
      · rcases ih3 with ⟨h1, h2, h3⟩ | ⟨f, hf1, hf2, hf3, hf4, hf5⟩
        · left
          refine ⟨h1, h2, ?_⟩
          intro g hg1 hg2
          rcases Nat.eq_or_lt_of_le hg1 with rfl | hlt'
          · rw [← hage]
            exact hle
          · exact h3 g hlt' hg2
        · right
          exact ⟨f, by omega, hf2, hf3, hf4, hf5⟩

/-- `EvictOk` is stable under the age reset the AGING policy performs on
the evicted page after the common tail. -/
theorem evictOk_setAge {s s' : Sys} {idx : Int} (h : EvictOk s s' idx) (v : Nat) :
    EvictOk s (setAge s' (s.framepage idx) v) idx := by
  obtain ⟨h1, h2, h3, h4, h5, h6, h7, h8, h9, h10, h11, h12, h13, h14⟩ := h
  refine ⟨h1, h2, h3, h4, ?_, ?_, h7, h8, h9, h10, h11, h12, ?_, ?_⟩
  · intro q
    simp only [setAge, setEntry]
    by_cases hq : q = s.framepage idx
    · rw [if_pos hq, if_pos hq]
      have h5x := h5 (s.framepage idx)
      rw [if_pos rfl] at h5x
      exact h5x
    · rw [if_neg hq, if_neg hq]
      have h5x := h5 q
      rw [if_neg hq] at h5x
      exact h5x
  · intro q
    simp only [setAge, setEntry]
    by_cases hq : q = s.framepage idx
    · rw [if_pos hq]
      rw [hq]
      exact h6 (s.framepage idx)
    · rw [if_neg hq]
      exact h6 q
  · exact h13
  · exact h14

theorem find_remove_aging_spec (s : Sys)
    (hcur : -1 ≤ s.fifo_current ∧ s.fifo_current < (VMEM_NFRAMES : Int))
    (hages : ∀ g : Nat, g < VMEM_NFRAMES → ageAt s g ≤ UCHAR_MAX) :
    ∃ (s' : Sys) (f : Nat), f < VMEM_NFRAMES ∧ find_remove_aging s = (s', (f : Int)) ∧
      EvictOk s s' (f : Int) ∧
      (∀ g : Nat, g < VMEM_NFRAMES → ageAt s f ≤ ageAt s g) ∧
      (∀ g : Nat, g < VMEM_NFRAMES → ageAt s g = ageAt s f → g ≤ f) ∧
      (s'.entries (s.framepage (f : Int))).age = 0x80 := by
  obtain ⟨hs1, hs2, hs3⟩ := aging_scan_spec { s with next_alloc_idx := VOID_IDX }
    VMEM_NFRAMES 0 UCHAR_MAX VOID_IDX rfl
  have hageeq : ∀ g : Nat, ageAt { s with next_alloc_idx := VOID_IDX } g = ageAt s g :=
    fun g => rfl
  rcases hs3 with ⟨h1, h2, h3⟩ | ⟨f, hf1, hf2, hf3, hf4, hf5⟩
  · exfalso
    have := h3 0 (Nat.zero_le 0) (by norm_num [VMEM_NFRAMES])
    have hb := hages 0 (by norm_num [VMEM_NFRAMES])
    rw [hageeq] at this
    omega
  · have hfne : ¬ ((f : Int) = VOID_IDX) := by
      simp only [VOID_IDX]
      omega
    have key : find_remove_aging s =
        (setAge (evict_finish { s with next_alloc_idx := (f : Int) } (s.framepage (f : Int)))
          (s.framepage (f : Int)) 0x80, (f : Int)) := by
      simp only [find_remove_aging]
      rw [hf3]
      simp only [if_neg hfne]
    have hok : EvictOk s (setAge (evict_finish { s with next_alloc_idx := (f : Int) }
        (s.framepage (f : Int))) (s.framepage (f : Int)) 0x80) (f : Int) := by
      have hbase := evict_finish_evictOk s { s with next_alloc_idx := (f : Int) } (f : Int)
        (fun q => rfl) (fun q => rfl) rfl rfl rfl rfl rfl rfl rfl rfl rfl
        ⟨hcur.1, hcur.2⟩ rfl (Int.natCast_nonneg f) (by exact_mod_cast hf2)
      exact evictOk_setAge hbase 0x80
    refine ⟨_, f, hf2, key, hok, ?_, ?_, ?_⟩
    · intro g hg
      have hb := hs2 g (Nat.zero_le g) hg
      have h4 : ageAt s f = (aging_scan { s with next_alloc_idx := VOID_IDX } 0
          UCHAR_MAX VOID_IDX).1 := hf4
      rw [h4]
      exact hb
    · intro g hg heq
      by_contra hgt
      push_neg at hgt
      have h5x := hf5 g hgt hg
      rw [← hf4] at h5x
      have hfinal : ageAt s f < ageAt s g := h5x
      omega
    · simp [setAge, setEntry]

/-- The sequence of frames the CLOCK hand visits, starting from cursor
value `c`: visit `k` is `advanceCursor` applied `k + 1` times. -/
def visitSeq (c : Int) : Nat → Int
  | 0 => advanceCursor c
  | k + 1 => advanceCursor (visitSeq c k)

theorem advanceCursor_emod {c : Int} (h1 : -1 ≤ c) (h2 : c < (VMEM_NFRAMES : Int)) :
    advanceCursor c = (c + 1) % (VMEM_NFRAMES : Int) := by
  unfold advanceCursor
  simp only [VMEM_NFRAMES] at *
  split <;> omega

theorem visitSeq_emod {c : Int} (h1 : -1 ≤ c) (h2 : c < (VMEM_NFRAMES : Int)) :
    ∀ k : Nat, visitSeq c k = (c + 1 + k) % (VMEM_NFRAMES : Int) := by
  intro k
  induction k with
  | zero =>
    show advanceCursor c = _
    rw [advanceCursor_emod h1 h2]
    norm_num
  | succ k ih =>
    show advanceCursor (visitSeq c k) = _
    have hr : 0 ≤ (c + 1 + k) % (VMEM_NFRAMES : Int) ∧
        (c + 1 + k) % (VMEM_NFRAMES : Int) < (VMEM_NFRAMES : Int) := by
      constructor
      · exact Int.emod_nonneg _ (by norm_num [VMEM_NFRAMES])
      · exact Int.emod_lt_of_pos _ (by norm_num [VMEM_NFRAMES])
    rw [ih, advanceCursor_emod (by omega) hr.2]
    simp only [VMEM_NFRAMES] at *
    omega

theorem visitSeq_range {c : Int} (h1 : -1 ≤ c) (h2 : c < (VMEM_NFRAMES : Int)) (k : Nat) :
    0 ≤ visitSeq c k ∧ visitSeq c k < (VMEM_NFRAMES : Int) := by
  rw [visitSeq_emod h1 h2]
  constructor
  · exact Int.emod_nonneg _ (by norm_num [VMEM_NFRAMES])
  · exact Int.emod_lt_of_pos _ (by norm_num [VMEM_NFRAMES])

theorem visitSeq_inj {c : Int} (h1 : -1 ≤ c) (h2 : c < (VMEM_NFRAMES : Int))
    {j j' : Nat} (hj : j < VMEM_NFRAMES) (hj' : j' < VMEM_NFRAMES) (hne : j ≠ j') :
    visitSeq c j ≠ visitSeq c j' := by
  rw [visitSeq_emod h1 h2, visitSeq_emod h1 h2]
  simp only [VMEM_NFRAMES] at *
  omega

theorem visitSeq_wrap {c : Int} (h1 : -1 ≤ c) (h2 : c < (VMEM_NFRAMES : Int)) :
    visitSeq c VMEM_NFRAMES = visitSeq c 0 := by
  rw [visitSeq_emod h1 h2, visitSeq_emod h1 h2]
  simp only [VMEM_NFRAMES]
  omega

theorem visitSeq_shift (c : Int) (j : Nat) :
    visitSeq (advanceCursor c) j = visitSeq c (j + 1) := by
  induction j with
  | zero => rfl
  | succ j ih =>
    show advanceCursor (visitSeq (advanceCursor c) j) = advanceCursor (visitSeq c (j + 1))
    rw [ih]

/-- State agreement on everything an eviction observes: forward frame
fields, DIRTY bits, the reverse map, frame data, swap, trace and admin
counters (cursor and `next_alloc_idx` excluded). -/
structure Agree (s t : Sys) : Prop where
  frame : ∀ q : Int, (t.entries q).frame = (s.entries q).frame
  dirty : ∀ q : Int, (t.entries q).flags &&& PTF_DIRTY = (s.entries q).flags &&& PTF_DIRTY
  fp : t.framepage = s.framepage
  data : t.data = s.data
  swap : t.swap = s.swap
  ev : t.events = s.events
  req : t.req_pageno = s.req_pageno
  pf : t.pf_count = s.pf_count
  g : t.g_count = s.g_count
  algo : t.page_rep_algo = s.page_rep_algo
  sem : t.sem = s.sem

theorem evictOk_of_agree {s t s' : Sys} {v : Int} (ha : Agree s t) (h : EvictOk t s' v) :
    EvictOk s s' v := by
  obtain ⟨h1, h2, h3, h4, h5, h6, h7, h8, h9, h10, h11, h12, h13, h14⟩ := h
  have hfp : t.framepage v = s.framepage v := by rw [ha.fp]
  refine ⟨h1, h2, by rw [h3, ha.fp], by rw [h4, ha.data], ?_, ?_, h7,
    by rw [h8, ha.req], by rw [h9, ha.pf], by rw [h10, ha.g], by rw [h11, ha.algo],
    by rw [h12, ha.sem], ?_, ?_⟩
  · intro q
    rw [h5 q, hfp]
    by_cases hq : q = s.framepage v
    · rw [if_pos hq, if_pos hq]
    · rw [if_neg hq, if_neg hq]
      exact ha.frame q
  · intro q
    rw [h6 q, ha.dirty q]
  · intro hd
    have hd' : dirtySet t (t.framepage v) := by
      show (t.entries (t.framepage v)).flags &&& PTF_DIRTY = PTF_DIRTY
      rw [hfp, ha.dirty]
      exact hd
    obtain ⟨he, hin, hout⟩ := h13 hd'
    refine ⟨by rw [he, ha.ev, hfp], ?_, ?_⟩
    · intro j hj1 hj2
      have := hin j (by rw [hfp]; exact hj1) (by rw [hfp]; exact hj2)
      rw [hfp] at this
      rw [this, ha.data]
    · intro j hj
      have := hout j (by rw [hfp]; exact hj)
      rw [this, ha.swap]
  · intro hd
    have hd' : ¬ dirtySet t (t.framepage v) := by
      intro hc
      apply hd
      show (s.entries (s.framepage v)).flags &&& PTF_DIRTY = PTF_DIRTY
      rw [← ha.dirty, ← hfp]
      exact hc
    obtain ⟨he, hs⟩ := h14 hd'
    exact ⟨by rw [he, ha.ev], by rw [hs, ha.swap]⟩

theorem clock_loop_succ (s : Sys) (fuel : Nat) :
    clock_loop s (fuel + 1) =
      if (s.entries (s.framepage (advanceCursor s.fifo_current))).flags &&& PTF_REF
          = PTF_REF then
        clock_loop (setFlags (cursorSet s (advanceCursor s.fifo_current))
          (s.framepage (advanceCursor s.fifo_current))
          ((s.entries (s.framepage (advanceCursor s.fifo_current))).flags ^^^ PTF_REF)) fuel
      else some (evict_finish (cursorSet s (advanceCursor s.fifo_current))
        (s.framepage (advanceCursor s.fifo_current)), advanceCursor s.fifo_current) := rfl

/-- Clearing REFERENCED of a set page while advancing the cursor is an
`Agree` step. -/
theorem agree_clear_ref (s : Sys) (fc : Int) (el : Int) :
    Agree s (setFlags (cursorSet s fc) el ((s.entries el).flags ^^^ PTF_REF)) := by
  refine ⟨?_, ?_, rfl, rfl, rfl, rfl, rfl, rfl, rfl, rfl, rfl⟩
  · intro q
    show (if q = el then _ else (cursorSet s fc).entries q).frame = _
    by_cases hq : q = el
    · rw [if_pos hq, hq]
      rfl
    · rw [if_neg hq]
      rfl
  · intro q
    show (if q = el then _ else (cursorSet s fc).entries q).flags &&& PTF_DIRTY = _
    by_cases hq : q = el
    · rw [if_pos hq, hq]
      exact xor_ref_and_dirty _
    · rw [if_neg hq]
      rfl

theorem refSet_setFlags_clear {s : Sys} {el : Int} (q : Int) :
    refSet (setFlags s el ((s.entries el).flags ^^^ PTF_REF)) q ↔
      (if q = el then ((s.entries el).flags ^^^ PTF_REF) &&& PTF_REF = PTF_REF
       else refSet s q) := by
  unfold refSet setFlags setEntry
  by_cases hq : q = el
  · simp [hq]
  · simp only [if_neg hq]

theorem not_refSet_of_clear {s : Sys} {el : Int} (hset : refSet s el) :
    ¬ refSet (setFlags s el ((s.entries el).flags ^^^ PTF_REF)) el := by
  rw [refSet_setFlags_clear, if_pos rfl, xor_ref_clears_ref hset]
  simp [PTF_REF]

theorem not_refSet_clear_step {s : Sys} {el q : Int} (hel : refSet s el)
    (h : ¬ refSet s q) :
    ¬ refSet (setFlags s el ((s.entries el).flags ^^^ PTF_REF)) q := by
  rw [refSet_setFlags_clear]
  by_cases hq : q = el
  · rw [if_pos hq, xor_ref_clears_ref hel]
    simp [PTF_REF]
  · rw [if_neg hq]
    exact h

theorem refSet_cursorSet (s : Sys) (fc : Int) (q : Int) :
    refSet (cursorSet s fc) q ↔ refSet s q := Iff.rfl

theorem refSet_evict_finish (s : Sys) (el q : Int) :
    refSet (evict_finish s el) q ↔ refSet s q := by
  unfold refSet
  rw [evict_finish_entries]
  by_cases hq : q = el
  · rw [if_pos hq, hq]
  · rw [if_neg hq]

theorem clock_loop_not_refSet :
    ∀ (fuel : Nat) (s s' : Sys) (v q : Int), ¬ refSet s q →
      clock_loop s fuel = some (s', v) → ¬ refSet s' q := by
  intro fuel
  induction fuel with
  | zero =>
    intro s s' v q hq heq
    exact absurd heq (by simp [clock_loop])
  | succ fuel ih =>
    intro s s' v q hq heq
    rw [clock_loop_succ] at heq
    by_cases hr : (s.entries (s.framepage (advanceCursor s.fifo_current))).flags &&& PTF_REF
        = PTF_REF
    · rw [if_pos hr] at heq
      have hq1 : ¬ refSet (setFlags (cursorSet s (advanceCursor s.fifo_current))
          (s.framepage (advanceCursor s.fifo_current))
          ((s.entries (s.framepage (advanceCursor s.fifo_current))).flags ^^^ PTF_REF)) q :=
        @not_refSet_clear_step (cursorSet s (advanceCursor s.fifo_current)) _ _ hr hq
      exact ih _ _ _ _ hq1 heq
    · rw [if_neg hr] at heq
      have := Option.some.inj heq
      have hs' : s' = evict_finish (cursorSet s (advanceCursor s.fifo_current))
          (s.framepage (advanceCursor s.fifo_current)) := (congrArg Prod.fst this).symm
      rw [hs', refSet_evict_finish]
      exact hq

theorem clock_loop_evictOk :
    ∀ (fuel : Nat) (s s' : Sys) (v : Int),
      -1 ≤ s.fifo_current → s.fifo_current < (VMEM_NFRAMES : Int) →
      clock_loop s fuel = some (s', v) →
      EvictOk s s' v ∧ s'.fifo_current = v ∧ s'.next_alloc_idx = v := by
  intro fuel
  induction fuel with
  | zero =>
    intro s s' v h1 h2 heq
    exact absurd heq (by simp [clock_loop])
  | succ fuel ih =>
    intro s s' v h1 h2 heq
    obtain ⟨hr1, hr2⟩ := advanceCursor_range h1 h2
    rw [clock_loop_succ] at heq
    by_cases hr : (s.entries (s.framepage (advanceCursor s.fifo_current))).flags &&& PTF_REF
        = PTF_REF
    · rw [if_pos hr] at heq
      have hmid := ih _ _ _ (by exact le_trans (by norm_num) hr1) (by exact hr2) heq
      exact ⟨evictOk_of_agree (agree_clear_ref s (advanceCursor s.fifo_current)
        (s.framepage (advanceCursor s.fifo_current))) hmid.1, hmid.2.1, hmid.2.2⟩
    · rw [if_neg hr] at heq
      have hinj := Option.some.inj heq
      have hs' : s' = evict_finish (cursorSet s (advanceCursor s.fifo_current))
          (s.framepage (advanceCursor s.fifo_current)) := (congrArg Prod.fst hinj).symm
      have hv : v = advanceCursor s.fifo_current := (congrArg Prod.snd hinj).symm
      obtain ⟨ha1, ha2, ha3, ha4, ha5, ha6, ha7, ha8⟩ :=
        evict_finish_admin (cursorSet s (advanceCursor s.fifo_current))
          (s.framepage (advanceCursor s.fifo_current))
      subst hs' hv
      refine ⟨evict_finish_evictOk s (cursorSet s (advanceCursor s.fifo_current)) _
        (fun q => rfl) (fun q => rfl) rfl rfl rfl rfl rfl rfl rfl rfl rfl
        ⟨by exact le_trans (by norm_num) hr1, by exact hr2⟩ rfl hr1 hr2, ?_, ?_⟩
      · rw [ha6]
        rfl
      · rw [ha7]
        rfl

theorem refSet_setFlags (s : Sys) (el : Int) (v : Nat) (q : Int) :
    refSet (setFlags s el v) q ↔
      (if q = el then v &&& PTF_REF = PTF_REF else refSet s q) := by
  unfold refSet setFlags setEntry
  by_cases hq : q = el
  · simp [hq]
  · simp only [if_neg hq]

/-- Frame-to-page injectivity on the occupied range (a consequence of
the table/frame consistency invariant when no frame is free). -/
def FpInj (s : Sys) : Prop :=
  ∀ g g' : Int, 0 ≤ g → g < (VMEM_NFRAMES : Int) → 0 ≤ g' → g' < (VMEM_NFRAMES : Int) →
    s.framepage g = s.framepage g' → g = g'

theorem clock_loop_visits :
    ∀ (k : Nat) (s : Sys) (fuel : Nat), FpInj s →
      -1 ≤ s.fifo_current → s.fifo_current < (VMEM_NFRAMES : Int) →
      k ≤ VMEM_NFRAMES →
      (∀ j : Nat, j < k → refSet s (s.framepage (visitSeq s.fifo_current j))) →
      (k < VMEM_NFRAMES → ¬ refSet s (s.framepage (visitSeq s.fifo_current k))) →
      k < fuel →
      ∃ s', clock_loop s fuel = some (s', visitSeq s.fifo_current k) ∧
        (∀ j : Nat, j < k → ¬ refSet s' (s.framepage (visitSeq s.fifo_current j))) := by
  intro k
  induction k with
  | zero =>
    intro s fuel hinj hc1 hc2 hk href hclear hfuel
    rcases fuel with _ | f
    · omega
    have hcl : ¬ ((s.entries (s.framepage (advanceCursor s.fifo_current))).flags &&& PTF_REF
        = PTF_REF) := hclear (by norm_num [VMEM_NFRAMES])
    rw [clock_loop_succ, if_neg hcl]
    exact ⟨_, rfl, fun j hj => absurd hj (by omega)⟩
  | succ k ih =>
    intro s fuel hinj hc1 hc2 hk href hclear hfuel
    rcases fuel with _ | f
    · omega
    obtain ⟨hr1, hr2⟩ := advanceCursor_range hc1 hc2
    have hr0 : refSet s (s.framepage (visitSeq s.fifo_current 0)) := href 0 (Nat.succ_pos k)
    have hr0' : (s.entries (s.framepage (advanceCursor s.fifo_current))).flags &&& PTF_REF
        = PTF_REF := hr0
    rw [clock_loop_succ, if_pos hr0']
    set t := setFlags (cursorSet s (advanceCursor s.fifo_current))
      (s.framepage (advanceCursor s.fifo_current))
      ((s.entries (s.framepage (advanceCursor s.fifo_current))).flags ^^^ PTF_REF) with ht
    have ht1 : t.fifo_current = advanceCursor s.fifo_current := rfl
    have ht2 : t.framepage = s.framepage := rfl
    have hdiff : ∀ j : Nat, j + 1 < VMEM_NFRAMES →
        s.framepage (visitSeq s.fifo_current (j + 1)) ≠
          s.framepage (visitSeq s.fifo_current 0) := by
      intro j hj hpe
      have hne := @visitSeq_inj s.fifo_current hc1 hc2 (j + 1) 0 hj
        (by norm_num [VMEM_NFRAMES]) (by omega)
      have hrng1 := visitSeq_range hc1 hc2 (j + 1)
      have hrng0 := visitSeq_range hc1 hc2 0
      exact hne (hinj _ _ hrng1.1 hrng1.2 hrng0.1 hrng0.2 hpe)
    have hclearv : ((s.entries (s.framepage (advanceCursor s.fifo_current))).flags ^^^
        PTF_REF) &&& PTF_REF ≠ PTF_REF := by
      rw [xor_ref_clears_ref hr0']
      simp [PTF_REF]
    obtain ⟨s', heq', hclr'⟩ := ih t f
      (fun g g' a b c d h => hinj g g' a b c d h)
      (by rw [ht1]; omega) (by rw [ht1]; exact hr2) (by omega)
      (by
        intro j hj
        rw [ht1, visitSeq_shift, ht2]
        have horig : refSet s (s.framepage (visitSeq s.fifo_current (j + 1))) :=
          href (j + 1) (by omega)
        have hne : s.framepage (visitSeq s.fifo_current (j + 1)) ≠
            s.framepage (advanceCursor s.fifo_current) := hdiff j (by omega)
        rw [ht, refSet_setFlags, if_neg hne]
        exact horig)
      (by
        intro hklt
        rw [ht1, visitSeq_shift, ht2]
        rw [ht, refSet_setFlags]
        by_cases hk1 : k + 1 < VMEM_NFRAMES
        · have hne : s.framepage (visitSeq s.fifo_current (k + 1)) ≠
              s.framepage (advanceCursor s.fifo_current) := hdiff k (by omega)
          rw [if_neg hne]
          exact hclear hk1
        · have hk16 : k + 1 = VMEM_NFRAMES := by omega
          rw [hk16, visitSeq_wrap hc1 hc2]
          rw [if_pos (show s.framepage (visitSeq s.fifo_current 0) =
            s.framepage (advanceCursor s.fifo_current) from rfl)]
          exact hclearv)
      (by omega)
    rw [ht1, visitSeq_shift] at heq'
    refine ⟨s', heq', ?_⟩
    intro j hj
    rcases Nat.eq_zero_or_pos j with rfl | hpos
    · have hns : ¬ refSet t (s.framepage (visitSeq s.fifo_current 0)) := by
        rw [ht, refSet_setFlags, if_pos (show s.framepage (visitSeq s.fifo_current 0) =
          s.framepage (advanceCursor s.fifo_current) from rfl)]
        exact hclearv
      exact clock_loop_not_refSet f _ s' _ _ hns heq'
    · obtain ⟨j', rfl⟩ := Nat.exists_eq_add_of_lt hpos
      simp only [Nat.zero_add] at *
      have := hclr' j' (by omega)
      rw [ht1, visitSeq_shift, ht2] at this
      exact this

theorem find_remove_clock_spec (s : Sys) (hinj : FpInj s)
    (hc1 : -1 ≤ s.fifo_current) (hc2 : s.fifo_current < (VMEM_NFRAMES : Int)) :
    ∃ (s' : Sys) (k : Nat), k ≤ VMEM_NFRAMES ∧
      find_remove_clock s = some (s', visitSeq s.fifo_current k) ∧
      EvictOk s s' (visitSeq s.fifo_current k) ∧
      (∀ j : Nat, j < k → refSet s (s.framepage (visitSeq s.fifo_current j))) ∧
      (∀ j : Nat, j < k → ¬ refSet s' (s.framepage (visitSeq s.fifo_current j))) ∧
      (k < VMEM_NFRAMES → ¬ refSet s (s.framepage (visitSeq s.fifo_current k))) := by
  by_cases hex : ∃ j : Nat, j < VMEM_NFRAMES ∧
      ¬ refSet s (s.framepage (visitSeq s.fifo_current j))
  · obtain ⟨hkN, hkclear⟩ := Nat.find_spec hex
    have href : ∀ j : Nat, j < Nat.find hex →
        refSet s (s.framepage (visitSeq s.fifo_current j)) := by
      intro j hj
      have hmin := Nat.find_min hex hj
      push_neg at hmin
      exact hmin (by omega)
    obtain ⟨s', heq, hclr⟩ := clock_loop_visits (Nat.find hex) s (VMEM_NFRAMES + 1) hinj
      hc1 hc2 (by omega) href (fun _ => hkclear) (by omega)
    obtain ⟨hok, _, _⟩ := clock_loop_evictOk (VMEM_NFRAMES + 1) s s' _ hc1 hc2 heq
    exact ⟨s', Nat.find hex, by omega, heq, hok, href, hclr, fun _ => hkclear⟩
  · push_neg at hex
    obtain ⟨s', heq, hclr⟩ := clock_loop_visits VMEM_NFRAMES s (VMEM_NFRAMES + 1) hinj
      hc1 hc2 (le_refl _) (fun j hj => hex j hj) (fun h => absurd h (lt_irrefl _))
      (by omega)
    obtain ⟨hok, _, _⟩ := clock_loop_evictOk (VMEM_NFRAMES + 1) s s' _ hc1 hc2 heq
    exact ⟨s', VMEM_NFRAMES, le_refl _, heq, hok, fun j hj => hex j hj, hclr,
      fun h => absurd h (lt_irrefl _)⟩

/-- The AGING policy always returns an in-range victim and performs the
standard eviction effects, with no assumption on the stored ages (if no
frame qualifies in the scan, the source falls back to frame 0). -/
theorem find_remove_aging_evictOk (s : Sys)
    (hcur : -1 ≤ s.fifo_current ∧ s.fifo_current < (VMEM_NFRAMES : Int)) :
    ∃ (s' : Sys) (idx : Int), find_remove_aging s = (s', idx) ∧ EvictOk s s' idx := by
  obtain ⟨hs1, hs2, hs3⟩ := aging_scan_spec { s with next_alloc_idx := VOID_IDX }
    VMEM_NFRAMES 0 UCHAR_MAX VOID_IDX rfl
  rcases hs3 with ⟨h1, h2, h3⟩ | ⟨f, hf1, hf2, hf3, hf4, hf5⟩
  · have key : find_remove_aging s =
        (setAge (evict_finish { s with next_alloc_idx := (0 : Int) } (s.framepage 0))
          (s.framepage 0) 0x80, (0 : Int)) := by
      simp only [find_remove_aging]
      rw [h2]
      rw [if_pos (show VOID_IDX = VOID_IDX from rfl)]
    refine ⟨_, 0, key, ?_⟩
    have hbase := evict_finish_evictOk s { s with next_alloc_idx := (0 : Int) } 0
      (fun q => rfl) (fun q => rfl) rfl rfl rfl rfl rfl rfl rfl rfl rfl
      ⟨hcur.1, hcur.2⟩ rfl (le_refl 0) (by norm_num [VMEM_NFRAMES])
    exact evictOk_setAge hbase 0x80
  · have hfne : ¬ ((f : Int) = VOID_IDX) := by
      simp only [VOID_IDX]
      omega
    have key : find_remove_aging s =
        (setAge (evict_finish { s with next_alloc_idx := (f : Int) } (s.framepage (f : Int)))
          (s.framepage (f : Int)) 0x80, (f : Int)) := by
      simp only [find_remove_aging]
      rw [hf3]
      simp only [if_neg hfne]
    refine ⟨_, (f : Int), key, ?_⟩
    have hbase := evict_finish_evictOk s { s with next_alloc_idx := (f : Int) } (f : Int)
      (fun q => rfl) (fun q => rfl) rfl rfl rfl rfl rfl rfl rfl rfl rfl
      ⟨hcur.1, hcur.2⟩ rfl (Int.natCast_nonneg f) (by exact_mod_cast hf2)
    exact evictOk_setAge hbase 0x80

/-- Whatever the active policy, `find_remove_frame` succeeds and performs
the standard eviction effects on an in-range victim frame. -/
theorem find_remove_frame_spec (s : Sys) (hinj : FpInj s)
    (hcur : -1 ≤ s.fifo_current ∧ s.fifo_current < (VMEM_NFRAMES : Int)) :
    ∃ (s' : Sys) (idx : Int), find_remove_frame s = .ok (s', idx) ∧ EvictOk s s' idx := by
  unfold find_remove_frame
  rcases halgo : s.page_rep_algo with _ | _ | _
  · obtain ⟨s', heq, hok⟩ := find_remove_fifo_spec s hcur
    exact ⟨s', _, by rw [heq], hok⟩
  · obtain ⟨s', k, _, heq, hok, _, _, _⟩ := find_remove_clock_spec s hinj hcur.1 hcur.2
    exact ⟨s', _, by rw [heq], hok⟩
  · obtain ⟨s', idx, heq, hok⟩ := find_remove_aging_evictOk s hcur
    exact ⟨s', idx, by rw [heq], hok⟩

theorem alloc_finish_spec (s : Sys) (idx : Int)
    (hreq1 : 0 ≤ s.req_pageno) (hreq2 : s.req_pageno < (VMEM_NPAGES : Int)) :
    alloc_finish s idx =
      .ok (sem_post (setFrameF (setFramepage s idx s.req_pageno) s.req_pageno idx)) := by
  have h1 : (setFramepage s idx s.req_pageno).framepage idx = s.req_pageno := by
    simp [setFramepage]
  simp only [alloc_finish, h1]
  rw [if_neg (not_lt.mpr hreq1), if_neg (not_le.mpr hreq2)]
  rfl

theorem alloc_evict_tail_eq (s1 : Sys) (idx : Int) (h1 : 0 ≤ idx)
    (h2 : idx < (VMEM_NFRAMES : Int)) :
    alloc_evict_tail s1 idx =
      alloc_finish (fetch_page (setFrameF s1 s1.req_pageno idx) s1.req_pageno) idx := by
  simp only [alloc_evict_tail]
  rw [if_neg (not_lt.mpr h1), if_neg (not_le.mpr h2)]
  rfl

/-- The table/frame consistency invariant survives mapping the (formerly
non-resident) requested page into frame `idx`, with the entry that held
`framepage idx` (if the pre-state had one) cleared. -/
theorem Inv_step (s s' : Sys) (idx : Int) (hInv : Inv s)
    (hreq1 : 0 ≤ s.req_pageno) (hreq2 : s.req_pageno < (VMEM_NPAGES : Int))
    (hnr : (s.entries s.req_pageno).frame = VOID_IDX)
    (hi1 : 0 ≤ idx) (hi2 : idx < (VMEM_NFRAMES : Int))
    (hfp : ∀ g : Int, s'.framepage g = if g = idx then s.req_pageno else s.framepage g)
    (hfr : ∀ q : Int, 0 ≤ q → q < (VMEM_NPAGES : Int) →
      (s'.entries q).frame = if q = s.req_pageno then idx
        else if q = s.framepage idx then VOID_IDX else (s.entries q).frame)
    (hcur : -1 ≤ s'.fifo_current ∧ s'.fifo_current < (VMEM_NFRAMES : Int)) :
    Inv s' := by
  obtain ⟨hI1, hI2, hI3⟩ := hInv
  refine ⟨?_, ?_, hcur⟩
  · intro p hp1 hp2
    rw [hfr p hp1 hp2]
    by_cases hpr : p = s.req_pageno
    · rw [if_pos hpr]
      right
      refine ⟨hi1, hi2, ?_⟩
      rw [hfp idx, if_pos rfl, hpr]
    · rw [if_neg hpr]
      by_cases hpv : p = s.framepage idx
      · rw [if_pos hpv]
        left
        rfl
      · rw [if_neg hpv]
        rcases hI1 p hp1 hp2 with hv | ⟨ha, hb, hc⟩
        · left
          exact hv
        · right
          refine ⟨ha, hb, ?_⟩
          rw [hfp]
          have hne : (s.entries p).frame ≠ idx := by
            intro hcon
            apply hpv
            rw [← hc, hcon]
          rw [if_neg hne]
          exact hc
  · intro g hg1 hg2
    rw [hfp g]
    by_cases hgi : g = idx
    · rw [if_pos hgi]
      right
      refine ⟨hreq1, hreq2, ?_⟩
      rw [hfr s.req_pageno hreq1 hreq2, if_pos rfl, hgi]
    · rw [if_neg hgi]
      rcases hI2 g hg1 hg2 with hv | ⟨ha, hb, hc⟩
      · left
        exact hv
      · right
        refine ⟨ha, hb, ?_⟩
        have hpr : s.framepage g ≠ s.req_pageno := by
          intro hcon
          rw [hcon, hnr] at hc
          simp only [VOID_IDX] at hc
          omega
        have hpv : s.framepage g ≠ s.framepage idx := by
          intro hcon
          rcases hI2 idx hi1 hi2 with hvi | ⟨_, _, hci⟩
          · rw [hvi] at hcon
            rw [hcon] at ha
            simp only [VOID_IDX] at ha
            omega
          · rw [hcon] at hc
            rw [hci] at hc
            exact hgi hc.symm
        rw [hfr _ ha hb, if_neg hpr, if_neg hpv]
        exact hc

/-- Full characterisation of a successful fault handling: under the
protocol precondition (consistent tables, valid non-resident requested
page) `allocate_page` succeeds, maps the requested page to an in-range
frame `idx` (the least free frame, or the policy's victim), bumps the
fault counter, posts the semaphore once, keeps the invariant, touches
frame data only inside frame `idx`, and reads the page from swap exactly
in the eviction branch. -/
theorem allocate_page_spec (s : Sys) (hInv : Inv s)
    (hreq1 : 0 ≤ s.req_pageno) (hreq2 : s.req_pageno < (VMEM_NPAGES : Int))
    (hnr : (s.entries s.req_pageno).frame = VOID_IDX) :
    ∃ (s' : Sys) (idx : Int), allocate_page s = .ok s' ∧
      0 ≤ idx ∧ idx < (VMEM_NFRAMES : Int) ∧
      (∀ q : Int, 0 ≤ q → q < (VMEM_NPAGES : Int) →
        (s'.entries q).frame = if q = s.req_pageno then idx
          else if q = s.framepage idx then VOID_IDX else (s.entries q).frame) ∧
      (∀ g : Int, s'.framepage g = if g = idx then s.req_pageno else s.framepage g) ∧
      Inv s' ∧
      s'.req_pageno = s.req_pageno ∧
      s'.pf_count = s.pf_count + 1 ∧
      s'.g_count = s.g_count ∧
      s'.page_rep_algo = s.page_rep_algo ∧
      s'.sem = s.sem + 1 ∧
      (∀ j : Int, (j < idx * (VMEM_PAGESIZE : Int) ∨
          idx * (VMEM_PAGESIZE : Int) + (VMEM_PAGESIZE : Int) ≤ j) →
        s'.data j = s.data j) ∧
      (find_free_frame s ≠ VOID_IDX →
        idx = find_free_frame s ∧ s.framepage idx = VOID_IDX ∧
        (∀ g : Int, 0 ≤ g → g < idx → s.framepage g ≠ VOID_IDX) ∧
        s'.events = s.events ++ [Event.semPost] ∧
        s'.data = s.data ∧ s'.swap = s.swap) ∧
      (find_free_frame s = VOID_IDX →
        (0 ≤ s.framepage idx ∧ s.framepage idx < (VMEM_NPAGES : Int)) ∧
        (∀ o : Int, 0 ≤ o → o < (VMEM_PAGESIZE : Int) →
          s'.data (idx * (VMEM_PAGESIZE : Int) + o) =
            s.swap (s.req_pageno * (VMEM_PAGESIZE : Int) + o)) ∧
        (∃ mid : List Event,
          s'.events = s.events ++ (mid ++ [Event.fetch s.req_pageno, Event.semPost]) ∧
          (if dirtySet s (s.framepage idx)
           then mid = [Event.store (s.framepage idx)] else mid = []))) := by
  by_cases hfree : find_free_frame s = VOID_IDX
  · -- eviction branch
    have hnofree := find_free_frame_none hfree
    have hinj : FpInj s := by
      intro g g' a b c d h
      rcases (hInv.2.1) g a b with hv | ⟨_, _, hcg⟩
      · exact absurd hv (hnofree g a b)
      · rcases (hInv.2.1) g' c d with hv' | ⟨_, _, hcg'⟩
        · exact absurd hv' (hnofree g' c d)
        · rw [← hcg, ← hcg', h]
    obtain ⟨s2, idx, heqfr, hok⟩ := find_remove_frame_spec
      { s with pf_count := s.pf_count + 1 } hinj ⟨hInv.2.2.1, hInv.2.2.2⟩
    obtain ⟨hi1, hi2, hfp2, hdata2, hfr2, hdirty2, hcur2, hreqe2, hpf2, hg2, halgo2,
      hsem2, hwbd, hwbc⟩ := hok
    have e1 : allocate_page s = alloc_evict_tail s2 idx := by
      simp only [allocate_page]
      rw [if_pos hfree, heqfr]
    have e2 : allocate_page s = alloc_finish
        (fetch_page (setFrameF s2 s2.req_pageno idx) s2.req_pageno) idx := by
      rw [e1, alloc_evict_tail_eq _ _ hi1 hi2]
    have hreq2s : s2.req_pageno = s.req_pageno := hreqe2
    have e3 : allocate_page s = .ok (sem_post (setFrameF (setFramepage
        (fetch_page (setFrameF s2 s2.req_pageno idx) s2.req_pageno) idx
        (fetch_page (setFrameF s2 s2.req_pageno idx) s2.req_pageno).req_pageno)
        (fetch_page (setFrameF s2 s2.req_pageno idx) s2.req_pageno).req_pageno idx)) := by
      rw [e2]
      exact alloc_finish_spec _ idx (by show 0 ≤ s2.req_pageno; rw [hreq2s]; exact hreq1)
        (by show s2.req_pageno < (VMEM_NPAGES : Int); rw [hreq2s]; exact hreq2)
    -- shorthand facts
    have hvic_range : 0 ≤ s.framepage idx ∧ s.framepage idx < (VMEM_NPAGES : Int) := by
      rcases hInv.2.1 idx hi1 hi2 with hv | ⟨a, b, _⟩
      · exact absurd hv (hnofree idx hi1 hi2)
      · exact ⟨a, b⟩
    have hvic_frame : (s.entries (s.framepage idx)).frame = idx := by
      rcases hInv.2.1 idx hi1 hi2 with hv | ⟨_, _, c⟩
      · exact absurd hv (hnofree idx hi1 hi2)
      · exact c
    have hvic_ne_req : s.framepage idx ≠ s.req_pageno := by
      intro hcon
      rw [hcon, hnr] at hvic_frame
      simp only [VOID_IDX] at hvic_frame
      omega
    have hent4 : ∀ q : Int,
        (sem_post (setFrameF (setFramepage
          (fetch_page (setFrameF s2 s2.req_pageno idx) s2.req_pageno) idx
          (fetch_page (setFrameF s2 s2.req_pageno idx) s2.req_pageno).req_pageno)
          (fetch_page (setFrameF s2 s2.req_pageno idx) s2.req_pageno).req_pageno
          idx)).entries q =
        if q = s.req_pageno then { s2.entries s.req_pageno with frame := idx }
        else s2.entries q := by
      intro q
      simp only [sem_post, setFrameF, setFramepage, setEntry, fetch_page, hreq2s]
      by_cases hq : q = s.req_pageno
      · simp [hq]
      · simp [hq]
    refine ⟨_, idx, e3, hi1, hi2, ?_, ?_, ?_, ?_, ?_, ?_, ?_, ?_, ?_,
      fun hc => absurd hfree hc, fun _ => ⟨hvic_range, ?_, ?_⟩⟩
    · intro q hq1 hq2
      rw [hent4 q]
      by_cases hq : q = s.req_pageno
      · simp [hq]
      · rw [if_neg hq, if_neg hq]
        exact hfr2 q
    · intro g
      simp only [sem_post, setFrameF, setFramepage, setEntry, fetch_page, hreq2s]
      by_cases hg : g = idx
      · simp [hg]
      · simp [hg]
        exact congrFun hfp2 g
    · apply Inv_step s _ idx hInv hreq1 hreq2 hnr hi1 hi2
      · intro g
        simp only [sem_post, setFrameF, setFramepage, setEntry, fetch_page, hreq2s]
        by_cases hg : g = idx
        · simp [hg]
        · simp [hg]
          exact congrFun hfp2 g
      · intro q hq1 hq2
        rw [hent4 q]
        by_cases hq : q = s.req_pageno
        · simp [hq]
        · rw [if_neg hq, if_neg hq]
          exact hfr2 q
      · exact hcur2
    · show s2.req_pageno = s.req_pageno
      exact hreq2s
    · show s2.pf_count = s.pf_count + 1
      exact hpf2
    · show s2.g_count = s.g_count
      exact hg2
    · show s2.page_rep_algo = s.page_rep_algo
      exact halgo2
    · show s2.sem + 1 = s.sem + 1
      rw [hsem2]
    · intro j hj
      have hnotin : ¬ (idx * (VMEM_PAGESIZE : Int) ≤ j ∧
          j < idx * (VMEM_PAGESIZE : Int) + (VMEM_PAGESIZE : Int)) := by
        rcases hj with hj | hj <;> (intro hcon; omega)
      simp only [sem_post, setFrameF, setFramepage, setEntry, fetch_page]
      simp only [eq_self_iff_true, ite_true]
      rw [if_neg hnotin]
      exact congrFun hdata2 j
    · intro o ho1 ho2
      have hin : idx * (VMEM_PAGESIZE : Int) ≤ idx * (VMEM_PAGESIZE : Int) + o ∧
          idx * (VMEM_PAGESIZE : Int) + o <
            idx * (VMEM_PAGESIZE : Int) + (VMEM_PAGESIZE : Int) := by omega
      have harith : idx * (VMEM_PAGESIZE : Int) + o - idx * (VMEM_PAGESIZE : Int) = o := by
        ring
      simp only [sem_post, setFrameF, setFramepage, setEntry, fetch_page]
      simp only [eq_self_iff_true, ite_true]
      rw [if_pos hin, harith, hreq2s]
      by_cases hd : dirtySet s (s.framepage idx)
      · have hd1 : dirtySet { s with pf_count := s.pf_count + 1 }
            ({ s with pf_count := s.pf_count + 1 }.framepage idx) := hd
        obtain ⟨_, _, hout⟩ := hwbd hd1
        have hdisj : s.req_pageno * (VMEM_PAGESIZE : Int) + o <
              s.framepage idx * (VMEM_PAGESIZE : Int) ∨
            s.framepage idx * (VMEM_PAGESIZE : Int) + (VMEM_PAGESIZE : Int) ≤
              s.req_pageno * (VMEM_PAGESIZE : Int) + o := by
          have hne := hvic_ne_req
          simp only [VMEM_PAGESIZE] at *
          rcases lt_or_gt_of_ne hne with h | h
          · right
            omega
          · left
            omega
        have := hout _ hdisj
        rw [this]
      · have hd1 : ¬ dirtySet { s with pf_count := s.pf_count + 1 }
            ({ s with pf_count := s.pf_count + 1 }.framepage idx) := hd
        obtain ⟨_, hsw⟩ := hwbc hd1
        rw [show s2.swap = ({ s with pf_count := s.pf_count + 1 } : Sys).swap from hsw]
    · by_cases hd : dirtySet s (s.framepage idx)
      · refine ⟨[Event.store (s.framepage idx)], ?_, by rw [if_pos hd]⟩
        have hd1 : dirtySet { s with pf_count := s.pf_count + 1 }
            ({ s with pf_count := s.pf_count + 1 }.framepage idx) := hd
        obtain ⟨hev, _, _⟩ := hwbd hd1
        simp only [sem_post, setFrameF, setFramepage, setEntry, fetch_page]
        rw [hev, hreq2s]
        simp [List.append_assoc]
      · refine ⟨[], ?_, by rw [if_neg hd]⟩
        have hd1 : ¬ dirtySet { s with pf_count := s.pf_count + 1 }
            ({ s with pf_count := s.pf_count + 1 }.framepage idx) := hd
        obtain ⟨hev, _⟩ := hwbc hd1
        simp only [sem_post, setFrameF, setFramepage, setEntry, fetch_page]
        rw [hev, hreq2s]
        simp [List.append_assoc]
  · -- free-frame branch
    obtain ⟨f, hf_lt, hf_eq, hf_void, hf_least⟩ := find_free_frame_some hfree
    have hi1 : 0 ≤ find_free_frame s := by
      rw [hf_eq]
      exact Int.natCast_nonneg f
    have hi2 : find_free_frame s < (VMEM_NFRAMES : Int) := by
      rw [hf_eq]
      exact_mod_cast hf_lt
    have e1 : allocate_page s =
        alloc_finish { s with pf_count := s.pf_count + 1 } (find_free_frame s) := by
      simp only [allocate_page]
      rw [if_neg hfree]
    have e3 : allocate_page s = .ok (sem_post (setFrameF (setFramepage
        { s with pf_count := s.pf_count + 1 } (find_free_frame s) s.req_pageno)
        s.req_pageno (find_free_frame s))) := by
      rw [e1]
      exact alloc_finish_spec _ _ hreq1 hreq2
    have hfv : s.framepage (find_free_frame s) = VOID_IDX := by
      rw [hf_eq]
      exact hf_void
    have hent : ∀ q : Int,
        (sem_post (setFrameF (setFramepage { s with pf_count := s.pf_count + 1 }
          (find_free_frame s) s.req_pageno) s.req_pageno (find_free_frame s))).entries q =
        if q = s.req_pageno then { s.entries s.req_pageno with frame := find_free_frame s }
        else s.entries q := by
      intro q
      rfl
    have hfpc : ∀ g : Int,
        (sem_post (setFrameF (setFramepage { s with pf_count := s.pf_count + 1 }
          (find_free_frame s) s.req_pageno) s.req_pageno
          (find_free_frame s))).framepage g =
        if g = find_free_frame s then s.req_pageno else s.framepage g := by
      intro g
      rfl
    have hframe_char : ∀ q : Int, 0 ≤ q → q < (VMEM_NPAGES : Int) →
        ((sem_post (setFrameF (setFramepage { s with pf_count := s.pf_count + 1 }
          (find_free_frame s) s.req_pageno) s.req_pageno
          (find_free_frame s))).entries q).frame =
        if q = s.req_pageno then find_free_frame s
        else if q = s.framepage (find_free_frame s) then VOID_IDX
        else (s.entries q).frame := by
      intro q hq1 hq2
      rw [hent q]
      by_cases hq : q = s.req_pageno
      · simp [hq]
      · rw [if_neg hq, if_neg hq]
        have hqv : q ≠ s.framepage (find_free_frame s) := by
          rw [hfv]
          simp only [VOID_IDX]
          omega
        rw [if_neg hqv]
    refine ⟨_, find_free_frame s, e3, hi1, hi2, hframe_char, hfpc, ?_, rfl, rfl, rfl, rfl,
      rfl, fun j hj => rfl, fun _ => ⟨rfl, hfv, ?_, rfl, rfl, rfl⟩,
      fun hc => absurd hc hfree⟩
    · exact Inv_step s _ (find_free_frame s) hInv hreq1 hreq2 hnr hi1 hi2 hfpc
        hframe_char ⟨hInv.2.2.1, hInv.2.2.2⟩
    · intro g hg1 hg2
      have hgn : g.toNat < f := by
        rw [hf_eq] at hg2
        omega
      have := hf_least g.toNat hgn
      rwa [Int.toNat_of_nonneg hg1] at this

/-- The aging pass touches only `age` and `flags` of page-table entries:
every other component of the state, and every `frame` field, survives. -/
theorem age_pass_loop_proj :
    ∀ (n i : Nat) (s : Sys), VMEM_NFRAMES - i = n →
      (age_pass_loop s i).framepage = s.framepage ∧
      (age_pass_loop s i).data = s.data ∧
      (age_pass_loop s i).swap = s.swap ∧
      (age_pass_loop s i).events = s.events ∧
      (age_pass_loop s i).req_pageno = s.req_pageno ∧
      (age_pass_loop s i).pf_count = s.pf_count ∧
      (age_pass_loop s i).g_count = s.g_count ∧
      (age_pass_loop s i).page_rep_algo = s.page_rep_algo ∧
      (age_pass_loop s i).sem = s.sem ∧
      (age_pass_loop s i).fifo_current = s.fifo_current ∧
      (∀ q : Int, ((age_pass_loop s i).entries q).frame = (s.entries q).frame) := by
  intro n
  induction n with
  | zero =>
    intro i s hi
    have hge : ¬ i < VMEM_NFRAMES := by omega
    rw [age_pass_loop, if_neg hge]
    exact ⟨rfl, rfl, rfl, rfl, rfl, rfl, rfl, rfl, rfl, rfl, fun q => rfl⟩
  | succ n ih =>
    intro i s hi
    have hlt : i < VMEM_NFRAMES := by omega
    rw [age_pass_loop, if_pos hlt]
    by_cases hv : s.framepage (i : Int) = VOID_IDX
    · simp only [if_pos hv]
      exact ih (i + 1) s (by omega)
    · simp only [if_neg hv]
      obtain ⟨a1, a2, a3, a4, a5, a6, a7, a8, a9, a10, a11⟩ :=
        ih (i + 1) (setEntry s (s.framepage (i : Int))
          (agePass (s.entries (s.framepage (i : Int))))) (by omega)
      refine ⟨a1, a2, a3, a4, a5, a6, a7, a8, a9, a10, ?_⟩
      intro q
      rw [a11 q]
      show (if q = s.framepage (i : Int) then _ else s.entries q).frame = _
      by_cases hq : q = s.framepage (i : Int)
      · rw [if_pos hq, hq]
        show (agePass (s.entries (s.framepage (i : Int)))).frame = _
        unfold agePass
        split <;> rfl
      · rw [if_neg hq]

/-- Transfer the invariant along a state change that preserves frame
fields, the reverse map and the cursor. -/
theorem Inv_of_frame_eq (s t : Sys)
    (hfr : ∀ q : Int, (t.entries q).frame = (s.entries q).frame)
    (hfp : t.framepage = s.framepage)
    (hcur : t.fifo_current = s.fifo_current) (hInv : Inv s) : Inv t := by
  obtain ⟨h1, h2, h3⟩ := hInv
  refine ⟨?_, ?_, by rw [hcur]; exact h3⟩
  · intro p hp1 hp2
    rw [hfr p, hfp]
    exact h1 p hp1 hp2
  · intro f hf1 hf2
    rw [hfp]
    rcases h2 f hf1 hf2 with hv | ⟨a, b, c⟩
    · left
      exact hv
    · right
      exact ⟨a, b, by rw [hfr]; exact c⟩

theorem update_age_reset_ref_proj (s : Sys) :
    (update_age_reset_ref s).framepage = s.framepage ∧
    (update_age_reset_ref s).data = s.data ∧
    (update_age_reset_ref s).swap = s.swap ∧
    (update_age_reset_ref s).events = s.events ∧
    (update_age_reset_ref s).req_pageno = s.req_pageno ∧
    (update_age_reset_ref s).pf_count = s.pf_count ∧
    (update_age_reset_ref s).g_count = s.g_count ∧
    (update_age_reset_ref s).page_rep_algo = s.page_rep_algo ∧
    (update_age_reset_ref s).sem = s.sem ∧
    (update_age_reset_ref s).fifo_current = s.fifo_current ∧
    (∀ q : Int, ((update_age_reset_ref s).entries q).frame = (s.entries q).frame) := by
  unfold update_age_reset_ref
  split
  · exact age_pass_loop_proj VMEM_NFRAMES 0 s rfl
  · exact ⟨rfl, rfl, rfl, rfl, rfl, rfl, rfl, rfl, rfl, rfl, fun q => rfl⟩

theorem Inv_setFlags (s : Sys) (p : Int) (v : Nat) (hInv : Inv s) :
    Inv (setFlags s p v) := by
  refine Inv_of_frame_eq s (setFlags s p v) ?_ rfl rfl hInv
  intro q
  simp only [setFlags, setEntry]
  by_cases hq : q = p
  · simp [hq]
  · simp [hq]

/-! ### The address decomposition on arbitrary (two's-complement) ints. -/

theorem ldiff_seven_mod (m : Nat) : Nat.ldiff 7 m = 7 - m % 8 := by
  have hstep : Nat.ldiff 7 m = Nat.ldiff 7 (m % 8) := by
    apply Nat.eq_of_testBit_eq
    intro i
    rw [Nat.testBit_ldiff, Nat.testBit_ldiff]
    rcases Nat.lt_or_ge i 3 with h | h
    · have : Nat.testBit (m % 8) i = Nat.testBit m i := by
        have h8 : (8 : Nat) = 2 ^ 3 := by norm_num
        rw [h8, Nat.testBit_mod_two_pow]
        simp [h]
      rw [this]
    · have h7 : Nat.testBit 7 i = false := by
        have h2i : (7 : Nat) < 2 ^ i := by
          calc (7 : Nat) < 2 ^ 3 := by norm_num
          _ ≤ 2 ^ i := Nat.pow_le_pow_right (by norm_num) h
        exact Nat.testBit_lt_two_pow h2i
      rw [h7]
      simp
  rw [hstep]
  have hm : m % 8 < 8 := Nat.mod_lt _ (by norm_num)
  have hsmall : ∀ x : Nat, x < 8 → Nat.ldiff 7 x = 7 - x := by
    intro x hx
    apply Nat.eq_of_testBit_eq
    intro i
    rw [Nat.testBit_ldiff]
    rcases Nat.lt_or_ge i 3 with h | h
    · interval_cases x <;> interval_cases i <;> decide
    · have h7 : Nat.testBit 7 i = false := by
        have h2i : (7 : Nat) < 2 ^ i := by
          calc (7 : Nat) < 2 ^ 3 := by norm_num
          _ ≤ 2 ^ i := Nat.pow_le_pow_right (by norm_num) h
        exact Nat.testBit_lt_two_pow h2i
      have h7x : Nat.testBit (7 - x) i = false := by
        have h2i : (7 - x : Nat) < 2 ^ i := by
          have : (7 - x : Nat) < 2 ^ 3 := by omega
          calc (7 - x : Nat) < 2 ^ 3 := this
          _ ≤ 2 ^ i := Nat.pow_le_pow_right (by norm_num) h
        exact Nat.testBit_lt_two_pow h2i
      rw [h7, h7x]
      rfl
  exact hsmall _ hm

theorem lor_seven_aux (q r : Nat) (hr : r < 8) : (2 ^ 3 * q + r) ||| 7 = 2 ^ 3 * q + 7 := by
  have hr3 : r < 2 ^ 3 := lt_of_lt_of_eq hr (by norm_num)
  apply Nat.eq_of_testBit_eq
  intro i
  rw [Nat.testBit_lor, Nat.testBit_mul_pow_two_add _ hr3,
    Nat.testBit_mul_pow_two_add _ (show (7 : Nat) < 2 ^ 3 by norm_num)]
  rcases Nat.lt_or_ge i 3 with h | h
  · have h7 : Nat.testBit 7 i = true := by interval_cases i <;> decide
    simp [h, h7]
  · have h7 : Nat.testBit 7 i = false := by
      have h2i : (7 : Nat) < 2 ^ i := by
        calc (7 : Nat) < 2 ^ 3 := by norm_num
        _ ≤ 2 ^ i := Nat.pow_le_pow_right (by norm_num) h
      exact Nat.testBit_lt_two_pow h2i
    simp [Nat.not_lt_of_le h, h7]

theorem lor_seven (m : Nat) : m ||| 7 = m - m % 8 + 7 := by
  have hdecomp : m = 2 ^ 3 * (m / 8) + m % 8 := by
    have := Nat.div_add_mod m 8
    omega
  have hm : m % 8 < 8 := Nat.mod_lt _ (by norm_num)
  calc m ||| 7 = (2 ^ 3 * (m / 8) + m % 8) ||| 7 := by rw [← hdecomp]
  _ = 2 ^ 3 * (m / 8) + 7 := lor_seven_aux _ _ hm
  _ = m - m % 8 + 7 := by omega

/-- The C offset computation equals the (always non-negative) euclidean
remainder, on every int. -/
theorem offsetOfAddr_emod (a : Int) : offsetOfAddr a = a % 8 := by
  rcases a with n | m
  · rw [offsetOfAddr_ofNat]
    have h1 : Int.ofNat (n % 8) = ((n % 8 : Nat) : Int) := rfl
    have h2 : Int.ofNat n = ((n : Nat) : Int) := rfl
    rw [h1, h2]
    omega
  · show Int.ofNat (Nat.ldiff 7 m) = Int.negSucc m % 8
    rw [ldiff_seven_mod]
    have hneg : Int.negSucc m = -((m : Int) + 1) := rfl
    rw [hneg]
    have h1 : Int.ofNat (7 - m % 8) = ((7 - m % 8 : Nat) : Int) := rfl
    rw [h1]
    have hm : m % 8 < 8 := Nat.mod_lt _ (by norm_num)
    omega

theorem offsetOfAddr_range (a : Int) : 0 ≤ offsetOfAddr a ∧ offsetOfAddr a < 8 := by
  rw [offsetOfAddr_emod]
  constructor
  · exact Int.emod_nonneg a (by norm_num)
  · exact Int.emod_lt_of_pos a (by norm_num)

/-- Every address is its page number times the page size plus its
offset, also for negative ints. -/
theorem addr_decomp (a : Int) :
    (VMEM_PAGESIZE : Int) * pageOfAddr a + offsetOfAddr a = a := by
  rcases a with n | m
  · rw [offsetOfAddr_ofNat, pageOfAddr_ofNat]
    have h1 : Int.ofNat (n % 8) = ((n % 8 : Nat) : Int) := rfl
    have h2 : Int.ofNat (n / 8) = ((n / 8 : Nat) : Int) := rfl
    have h3 : Int.ofNat n = ((n : Nat) : Int) := rfl
    rw [h1, h2, h3]
    have := Nat.div_add_mod n 8
    have hps : (VMEM_PAGESIZE : Int) = 8 := rfl
    rw [hps]
    omega
  · rw [offsetOfAddr_emod]
    have hpage : pageOfAddr (Int.negSucc m) = -((m / 8 : Nat) : Int) - 1 := by
      show Int.tdiv (Int.land (Int.negSucc m) (Int.lnot (Int.ofNat 7))) (Int.ofNat 8) = _
      have h1 : Int.lnot (Int.ofNat 7) = Int.negSucc 7 := rfl
      have h2 : Int.land (Int.negSucc m) (Int.negSucc 7) = Int.negSucc (m ||| 7) := rfl
      rw [h1, h2]
      have h3 : Int.negSucc (m ||| 7) = -(((m ||| 7 : Nat) : Int) + 1) := rfl
      rw [h3, lor_seven]
      have hm : m % 8 ≤ m := Nat.mod_le m 8
      have h4 : -(((m - m % 8 + 7 : Nat) : Int) + 1) = (8 : Int) * (-((m / 8 : Nat) : Int) - 1) := by
        have := Nat.div_add_mod m 8
        push_cast
        omega
      rw [h4]
      have h8 : Int.ofNat 8 = (8 : Int) := rfl
      rw [h8]
      rw [Int.mul_tdiv_cancel_left _ (by norm_num : (8 : Int) ≠ 0)]
    rw [hpage]
    have hneg : Int.negSucc m = -((m : Int) + 1) := rfl
    rw [hneg]
    have hps : (VMEM_PAGESIZE : Int) = 8 := rfl
    rw [hps]
    have := Nat.div_add_mod m 8
    have hm : m % 8 < 8 := Nat.mod_lt _ (by norm_num)
    omega

/-- On non-negative addresses the page number is mathematical division by
the page size. -/
theorem pageOfAddr_div (a : Int) (h : 0 ≤ a) :
    pageOfAddr a = a / (VMEM_PAGESIZE : Int) := by
  have hd := addr_decomp a
  have hps : (VMEM_PAGESIZE : Int) = 8 := rfl
  rw [hps] at hd ⊢
  obtain ⟨ho1, ho2⟩ := offsetOfAddr_range a
  omega

theorem pageOfAddr_nonneg_iff (a : Int) : 0 ≤ pageOfAddr a ↔ 0 ≤ a := by
  have hd := addr_decomp a
  have hps : (VMEM_PAGESIZE : Int) = 8 := rfl
  rw [hps] at hd
  obtain ⟨ho1, ho2⟩ := offsetOfAddr_range a
  constructor
  · intro h
    omega
  · intro h
    by_contra hneg
    push_neg at hneg
    omega

/-! ### Characterisation of `vmem_init`. -/

theorem pt_init_loop_char :
    ∀ (n i : Nat) (s : Sys), VMEM_NPAGES - i = n →
      (∀ q : Int, (pt_init_loop s i).entries q =
        if (i : Int) ≤ q ∧ q < (VMEM_NPAGES : Int) then initPTE else s.entries q) ∧
      (pt_init_loop s i).framepage = s.framepage ∧
      (pt_init_loop s i).pf_count = s.pf_count ∧
      (pt_init_loop s i).g_count = s.g_count ∧
      (pt_init_loop s i).sem = s.sem ∧
      (pt_init_loop s i).fifo_current = s.fifo_current ∧
      (pt_init_loop s i).req_pageno = s.req_pageno ∧
      (pt_init_loop s i).events = s.events := by
  intro n
  induction n with
  | zero =>
    intro i s hi
    have hge : ¬ i < VMEM_NPAGES := by omega
    rw [pt_init_loop, if_neg hge]
    refine ⟨fun q => ?_, rfl, rfl, rfl, rfl, rfl, rfl, rfl⟩
    have hc : ¬ ((i : Int) ≤ q ∧ q < (VMEM_NPAGES : Int)) := by
      simp only [VMEM_NPAGES] at *
      omega
    rw [if_neg hc]
  | succ n ih =>
    intro i s hi
    have hlt : i < VMEM_NPAGES := by omega
    rw [pt_init_loop, if_pos hlt]
    obtain ⟨a1, a2, a3, a4, a5, a6, a7, a8⟩ :=
      ih (i + 1) (setEntry s (i : Int) initPTE) (by omega)
    refine ⟨fun q => ?_, a2, a3, a4, a5, a6, a7, a8⟩
    rw [a1 q]
    simp only [setEntry, VMEM_NPAGES] at *
    push_cast
    split_ifs with h1 h2 h3 h4 h5 <;> first | rfl | (exfalso; omega)

theorem fp_init_loop_char :
    ∀ (n i : Nat) (s : Sys), VMEM_NFRAMES - i = n →
      (∀ g : Int, (fp_init_loop s i).framepage g =
        if (i : Int) ≤ g ∧ g < (VMEM_NFRAMES : Int) then VOID_IDX else s.framepage g) ∧
      (fp_init_loop s i).entries = s.entries ∧
      (fp_init_loop s i).pf_count = s.pf_count ∧
      (fp_init_loop s i).g_count = s.g_count ∧
      (fp_init_loop s i).sem = s.sem ∧
      (fp_init_loop s i).fifo_current = s.fifo_current ∧
      (fp_init_loop s i).req_pageno = s.req_pageno ∧
      (fp_init_loop s i).events = s.events := by
  intro n
  induction n with
  | zero =>
    intro i s hi
    have hge : ¬ i < VMEM_NFRAMES := by omega
    rw [fp_init_loop, if_neg hge]
    refine ⟨fun g => ?_, rfl, rfl, rfl, rfl, rfl, rfl, rfl⟩
    have hc : ¬ ((i : Int) ≤ g ∧ g < (VMEM_NFRAMES : Int)) := by
      simp only [VMEM_NFRAMES] at *
      omega
    rw [if_neg hc]
  | succ n ih =>
    intro i s hi
    have hlt : i < VMEM_NFRAMES := by omega
    rw [fp_init_loop, if_pos hlt]
    obtain ⟨a1, a2, a3, a4, a5, a6, a7, a8⟩ :=
      ih (i + 1) (setFramepage s (i : Int) VOID_IDX) (by omega)
    refine ⟨fun g => ?_, a2, a3, a4, a5, a6, a7, a8⟩
    rw [a1 g]
    simp only [setFramepage, VMEM_NFRAMES, VOID_IDX] at *
    push_cast
    split_ifs with h1 h2 h3 h4 h5 <;> first | rfl | (exfalso; omega)

theorem vmem_init_entries (w : Int → Int) (q : Int) (h1 : 0 ≤ q)
    (h2 : q < (VMEM_NPAGES : Int)) : (vmem_init w).entries q = initPTE := by
  obtain ⟨f1, f2, f3, f4, f5, f6, f7, f8⟩ := fp_init_loop_char VMEM_NFRAMES 0
    (pt_init_loop { zeroSys w with
      size := (VMEM_VIRTMEMSIZE : Int), next_alloc_idx := 0, req_pageno := 0 } 0) rfl
  obtain ⟨p1, p2, p3, p4, p5, p6, p7, p8⟩ := pt_init_loop_char VMEM_NPAGES 0
    { zeroSys w with
      size := (VMEM_VIRTMEMSIZE : Int), next_alloc_idx := 0, req_pageno := 0 } rfl
  show (fp_init_loop _ 0).entries q = initPTE
  rw [f2, p1 q, if_pos ⟨h1, h2⟩]

theorem vmem_init_framepage (w : Int → Int) (g : Int) (h1 : 0 ≤ g)
    (h2 : g < (VMEM_NFRAMES : Int)) : (vmem_init w).framepage g = VOID_IDX := by
  obtain ⟨f1, f2, f3, f4, f5, f6, f7, f8⟩ := fp_init_loop_char VMEM_NFRAMES 0
    (pt_init_loop { zeroSys w with
      size := (VMEM_VIRTMEMSIZE : Int), next_alloc_idx := 0, req_pageno := 0 } 0) rfl
  show (fp_init_loop _ 0).framepage g = VOID_IDX
  rw [f1 g, if_pos ⟨h1, h2⟩]

theorem vmem_init_admin (w : Int → Int) :
    (vmem_init w).pf_count = 0 ∧ (vmem_init w).g_count = 0 ∧
    (vmem_init w).sem = 0 ∧ (vmem_init w).fifo_current = -1 ∧
    (vmem_init w).req_pageno = 0 ∧ (vmem_init w).events = [] := by
  obtain ⟨f1, f2, f3, f4, f5, f6, f7, f8⟩ := fp_init_loop_char VMEM_NFRAMES 0
    (pt_init_loop { zeroSys w with
      size := (VMEM_VIRTMEMSIZE : Int), next_alloc_idx := 0, req_pageno := 0 } 0) rfl
  obtain ⟨p1, p2, p3, p4, p5, p6, p7, p8⟩ := pt_init_loop_char VMEM_NPAGES 0
    { zeroSys w with
      size := (VMEM_VIRTMEMSIZE : Int), next_alloc_idx := 0, req_pageno := 0 } rfl
  show (fp_init_loop _ 0).pf_count = 0 ∧ (fp_init_loop _ 0).g_count = 0 ∧
    (fp_init_loop _ 0).sem = 0 ∧ (fp_init_loop _ 0).fifo_current = -1 ∧
    (fp_init_loop _ 0).req_pageno = 0 ∧ (fp_init_loop _ 0).events = []
  rw [f3, f4, f5, f6, f7, f8, p3, p4, p5, p6, p7, p8]
  exact ⟨rfl, rfl, rfl, rfl, rfl, rfl⟩

theorem Inv_vmem_init (w : Int → Int) : Inv (vmem_init w) := by
  obtain ⟨_, _, _, hcur, _, _⟩ := vmem_init_admin w
  refine ⟨?_, ?_, ?_⟩
  · intro p hp1 hp2
    left
    rw [vmem_init_entries w p hp1 hp2]
    rfl
  · intro f hf1 hf2
    left
    exact vmem_init_framepage w f hf1 hf2
  · rw [hcur]
    constructor
    · norm_num
    · norm_num [VMEM_NFRAMES]

/-! ### Consequences of the invariant. -/

theorem consistent_of_Inv {s : Sys} (h : Inv s) : consistent s := by
  intro f hf1 hf2 hocc
  rcases h.2.1 f hf1 hf2 with hv | ⟨a, b, c⟩
  · exact absurd hv hocc
  · refine ⟨a, b, fun p hp1 hp2 => ⟨fun hfr => ?_, fun hp => by rw [hp]; exact c⟩⟩
    rcases h.1 p hp1 hp2 with hv | ⟨_, _, hback⟩
    · rw [hv] at hfr
      exfalso
      simp only [VOID_IDX] at *
      omega
    · rw [hfr] at hback
      omega

/-- No two (valid, resident) page table entries reference the same frame. -/
theorem frame_unique_of_Inv {s : Sys} (h : Inv s) :
    ∀ p q : Int, 0 ≤ p → p < (VMEM_NPAGES : Int) → 0 ≤ q → q < (VMEM_NPAGES : Int) →
      (s.entries p).frame ≠ VOID_IDX → (s.entries p).frame = (s.entries q).frame →
      p = q := by
  intro p q hp1 hp2 hq1 hq2 hres heq
  rcases h.1 p hp1 hp2 with hv | ⟨a, b, c⟩
  · exact absurd hv hres
  · rcases h.1 q hq1 hq2 with hv' | ⟨_, _, c'⟩
    · rw [heq, hv'] at a
      exfalso
      simp only [VOID_IDX] at a
      omega
    · rw [← c, ← c', heq]

/-! ### A concrete fully-occupied state, used to instantiate theorems with
hypotheses on concrete inputs. -/

/-- All sixteen frames occupied: page `p` resident in frame `p` for
`p < 16`, clean, unreferenced, age `0x80`; the requested page 16 is not
resident. -/
def fullSys (al : Algo) : Sys where
  entries := fun p =>
    if 0 ≤ p ∧ p < (VMEM_NFRAMES : Int) then
      { frame := p, flags := 0, age := 0x80, count := 0 }
    else initPTE
  framepage := fun f => if 0 ≤ f ∧ f < (VMEM_NFRAMES : Int) then f else VOID_IDX
  data := fun _ => 0
  swap := fun _ => 0
  size := (VMEM_VIRTMEMSIZE : Int)
  next_alloc_idx := 0
  req_pageno := 16
  pf_count := 0
  g_count := 0
  page_rep_algo := al
  fifo_current := -1
  sem := 0
  events := []

theorem Inv_fullSys (al : Algo) : Inv (fullSys al) := by
  refine ⟨?_, ?_, ?_⟩
  · intro p hp1 hp2
    simp only [fullSys, VMEM_NFRAMES, VMEM_NPAGES, VOID_IDX, initPTE,
      Nat.cast_ofNat] at *
    by_cases hp : 0 ≤ p ∧ p < 16
    · right
      rw [if_pos hp, if_pos hp]
      exact ⟨hp.1, hp.2, rfl⟩
    · left
      rw [if_neg hp]
  · intro f hf1 hf2
    simp only [fullSys, VMEM_NFRAMES, VMEM_NPAGES, VOID_IDX, Nat.cast_ofNat] at *
    right
    rw [if_pos ⟨hf1, hf2⟩, if_pos ⟨hf1, hf2⟩]
    exact ⟨hf1, by omega, rfl⟩
  · simp only [fullSys, VMEM_NFRAMES]
    norm_num

theorem FpInj_fullSys (al : Algo) : FpInj (fullSys al) := by
  intro g g' h1 h2 h3 h4 h5
  simp only [fullSys] at h5
  rw [if_pos ⟨h1, h2⟩, if_pos ⟨h3, h4⟩] at h5
  exact h5

/-! ### Effect lemmas for the translator (`vmem_read` / `vmem_write`). -/

/-- The fault protocol, seen from the translator: the page table maps the
requested page to an in-range frame, the invariant is re-established, the
global access counter is untouched, and data changes are confined to the
allocated frame's window. -/
theorem handle_fault_spec (s : Sys) (hInv : Inv s)
    (hreq1 : 0 ≤ s.req_pageno) (hreq2 : s.req_pageno < (VMEM_NPAGES : Int))
    (hnr : (s.entries s.req_pageno).frame = VOID_IDX) :
    ∃ (s' : Sys) (idx : Int), handle_fault s = .ok s' ∧
      0 ≤ idx ∧ idx < (VMEM_NFRAMES : Int) ∧ Inv s' ∧
      s'.req_pageno = s.req_pageno ∧ s'.g_count = s.g_count ∧
      s'.page_rep_algo = s.page_rep_algo ∧
      (s'.entries s.req_pageno).frame = idx ∧
      (∀ j : Int, (j < idx * (VMEM_PAGESIZE : Int) ∨
          idx * (VMEM_PAGESIZE : Int) + (VMEM_PAGESIZE : Int) ≤ j) →
        s'.data j = s.data j) := by
  obtain ⟨s1, idx, heq, hi1, hi2, hfr, hfp, hInv1, hreq, hpf, hg, halgo, hsem, hdata, _, _⟩ :=
    allocate_page_spec s hInv hreq1 hreq2 hnr
  refine ⟨{ s1 with sem := s1.sem - 1 }, idx, ?_, hi1, hi2, ?_, hreq, hg, halgo, ?_, hdata⟩
  · unfold handle_fault
    rw [heq]
  · exact Inv_of_frame_eq s1 _ (fun q => rfl) rfl rfl hInv1
  · have hx := hfr s.req_pageno hreq1 hreq2
    rw [if_pos rfl] at hx
    exact hx

/-- The `g_count++` / aging epilogue both translator calls run: frame
fields, the reverse map, data and the cursor survive. -/
theorem access_tail_proj (s : Sys) :
    (if s.page_rep_algo = Algo.aging then update_age_reset_ref s else s).framepage
        = s.framepage ∧
    (if s.page_rep_algo = Algo.aging then update_age_reset_ref s else s).data = s.data ∧
    (if s.page_rep_algo = Algo.aging then update_age_reset_ref s else s).g_count
        = s.g_count ∧
    (∀ q : Int, ((if s.page_rep_algo = Algo.aging then update_age_reset_ref s
        else s).entries q).frame = (s.entries q).frame) ∧
    (if s.page_rep_algo = Algo.aging then update_age_reset_ref s else s).fifo_current
        = s.fifo_current := by
  split
  · obtain ⟨h1, h2, _, _, _, _, h7, _, _, h10, h11⟩ := update_age_reset_ref_proj s
    exact ⟨h1, h2, h7, h11, h10⟩
  · exact ⟨rfl, rfl, rfl, fun q => rfl, rfl⟩

theorem Inv_access_tail (s : Sys) (hInv : Inv s) :
    Inv (if s.page_rep_algo = Algo.aging then update_age_reset_ref s else s) := by
  obtain ⟨h1, _, _, h4, h5⟩ := access_tail_proj s
  exact Inv_of_frame_eq s _ h4 h1 h5 hInv

/-- A successful `vmem_write s a d` keeps the invariant, bumps the access
counter, leaves the requested page resident in an in-range frame `fr`,
stores `d` at the physical word, confines all frame-data changes to
frame `fr`'s window, and — when the page was already resident — changes
nothing but the single written word. -/
theorem vmem_write_effects (s s' : Sys) (a d : Int) (hInv : Inv s)
    (heq : vmem_write s a d = .ok s') :
    Inv s' ∧ 0 ≤ pageOfAddr a ∧ pageOfAddr a < (VMEM_NPAGES : Int) ∧
    s'.g_count = s.g_count + 1 ∧
    ∃ fr : Int, 0 ≤ fr ∧ fr < (VMEM_NFRAMES : Int) ∧
      (s'.entries (pageOfAddr a)).frame = fr ∧
      s'.data (fr * (VMEM_PAGESIZE : Int) + offsetOfAddr a) = d ∧
      (∀ j : Int, (j < fr * (VMEM_PAGESIZE : Int) ∨
          fr * (VMEM_PAGESIZE : Int) + (VMEM_PAGESIZE : Int) ≤ j) →
        s'.data j = s.data j) ∧
      ((s.entries (pageOfAddr a)).frame ≠ VOID_IDX →
        fr = (s.entries (pageOfAddr a)).frame ∧
        ∀ j : Int, j ≠ fr * (VMEM_PAGESIZE : Int) + offsetOfAddr a →
          s'.data j = s.data j) := by
  have hps : (VMEM_PAGESIZE : Int) = 8 := rfl
  obtain ⟨ho1, ho2⟩ := offsetOfAddr_range a
  by_cases hb0 : pageOfAddr a < 0
  · simp only [vmem_write] at heq
    rw [if_pos hb0] at heq
    exact Except.noConfusion heq
  by_cases hb1 : (VMEM_NPAGES : Int) ≤ pageOfAddr a
  · simp only [vmem_write] at heq
    rw [if_neg hb0, if_pos hb1] at heq
    exact Except.noConfusion heq
  have hp0 : 0 ≤ pageOfAddr a := not_lt.mp hb0
  have hp2 : pageOfAddr a < (VMEM_NPAGES : Int) := not_le.mp hb1
  have hInv1 : Inv { s with req_pageno := pageOfAddr a } :=
    Inv_of_frame_eq s _ (fun q => rfl) rfl rfl hInv
  have hInv2 : Inv (setFlags { s with req_pageno := pageOfAddr a } (pageOfAddr a)
      (PTF_DIRTY ||| (PTF_REF ||| (s.entries (pageOfAddr a)).flags))) :=
    Inv_setFlags _ _ _ hInv1
  simp only [vmem_write] at heq
  rw [if_neg hb0, if_neg hb1] at heq
  by_cases hres : (s.entries (pageOfAddr a)).frame = VOID_IDX
  · -- fault branch
    rw [if_pos hres] at heq
    obtain ⟨s3, idx, hhf, hi1, hi2, hInv3, hreq3, hg3, halgo3, hfr3x, hdata3⟩ :=
      handle_fault_spec (setFlags { s with req_pageno := pageOfAddr a } (pageOfAddr a)
        (PTF_DIRTY ||| (PTF_REF ||| (s.entries (pageOfAddr a)).flags))) hInv2
        (show (0:Int) ≤ pageOfAddr a from hp0)
        (show pageOfAddr a < (VMEM_NPAGES : Int) from hp2)
        (by
          show ((setFlags { s with req_pageno := pageOfAddr a } (pageOfAddr a)
            (PTF_DIRTY ||| (PTF_REF ||| (s.entries (pageOfAddr a)).flags))).entries
            (pageOfAddr a)).frame = VOID_IDX
          simp only [setFlags, setEntry]
          simp [hres])
    have hfr3 : (s3.entries (pageOfAddr a)).frame = idx := hfr3x
    rw [hhf] at heq
    dsimp only at heq
    rw [hfr3] at heq
    have hph0 : ¬ (idx * (VMEM_PAGESIZE : Int) + offsetOfAddr a < 0) := by
      rw [hps]
      omega
    have hph1 : ¬ ((128 : Int) ≤ idx * (VMEM_PAGESIZE : Int) + offsetOfAddr a) := by
      rw [hps]
      simp only [VMEM_NFRAMES] at hi2
      omega
    rw [if_neg hph0, if_neg hph1] at heq
    replace heq : Except.ok (if ({ s3 with
        data := fun j => if j = idx * (VMEM_PAGESIZE : Int) + offsetOfAddr a then d
          else s3.data j,
        g_count := s3.g_count + 1 } : Sys).page_rep_algo = Algo.aging then
          update_age_reset_ref { s3 with
            data := fun j => if j = idx * (VMEM_PAGESIZE : Int) + offsetOfAddr a then d
              else s3.data j,
            g_count := s3.g_count + 1 }
        else { s3 with
          data := fun j => if j = idx * (VMEM_PAGESIZE : Int) + offsetOfAddr a then d
            else s3.data j,
          g_count := s3.g_count + 1 }) = Except.ok s' := heq
    cases heq
    obtain ⟨t1, t2, t3, t4, t5⟩ := access_tail_proj { s3 with
      data := fun j => if j = idx * (VMEM_PAGESIZE : Int) + offsetOfAddr a then d
        else s3.data j,
      g_count := s3.g_count + 1 }
    have hg3' : s3.g_count = s.g_count := hg3
    refine ⟨?_, hp0, hp2, ?_, idx, hi1, hi2, ?_, ?_, ?_, fun hcon => absurd hres hcon⟩
    · refine Inv_access_tail _ ?_
      exact Inv_of_frame_eq s3 _ (fun q => rfl) rfl rfl hInv3
    · rw [t3]
      show s3.g_count + 1 = s.g_count + 1
      rw [hg3']
    · rw [t4]
      exact hfr3
    · rw [t2]
      show (if idx * (VMEM_PAGESIZE : Int) + offsetOfAddr a =
          idx * (VMEM_PAGESIZE : Int) + offsetOfAddr a then d
        else s3.data (idx * (VMEM_PAGESIZE : Int) + offsetOfAddr a)) = d
      rw [if_pos rfl]
    · intro j hj
      rw [t2]
      have hne : ¬ (j = idx * (VMEM_PAGESIZE : Int) + offsetOfAddr a) := by
        rw [hps] at hj ⊢
        omega
      show (if j = idx * (VMEM_PAGESIZE : Int) + offsetOfAddr a then d
        else s3.data j) = s.data j
      rw [if_neg hne]
      have hd3 : s3.data j = s.data j := hdata3 j hj
      exact hd3
  · -- resident branch
    rw [if_neg hres] at heq
    dsimp only at heq
    rcases hInv.1 (pageOfAddr a) hp0 hp2 with hv | ⟨hfr1, hfr2, _⟩
    · exact absurd hv hres
    have hfrS2 : ((setFlags { s with req_pageno := pageOfAddr a } (pageOfAddr a)
        (PTF_DIRTY ||| (PTF_REF ||| (s.entries (pageOfAddr a)).flags))).entries
        (pageOfAddr a)).frame = (s.entries (pageOfAddr a)).frame := by
      simp only [setFlags, setEntry]
      simp
    rw [hfrS2] at heq
    have hph0 : ¬ ((s.entries (pageOfAddr a)).frame * (VMEM_PAGESIZE : Int)
        + offsetOfAddr a < 0) := by
      rw [hps]
      omega
    have hph1 : ¬ ((128 : Int) ≤ (s.entries (pageOfAddr a)).frame * (VMEM_PAGESIZE : Int)
        + offsetOfAddr a) := by
      rw [hps]
      simp only [VMEM_NFRAMES] at hfr2
      omega
    rw [if_neg hph0, if_neg hph1] at heq
    replace heq : Except.ok (if ({ (setFlags { s with req_pageno := pageOfAddr a }
        (pageOfAddr a) (PTF_DIRTY ||| (PTF_REF ||| (s.entries (pageOfAddr a)).flags))) with
        data := fun j => if j = (s.entries (pageOfAddr a)).frame * (VMEM_PAGESIZE : Int)
            + offsetOfAddr a then d
          else (setFlags { s with req_pageno := pageOfAddr a } (pageOfAddr a)
            (PTF_DIRTY ||| (PTF_REF ||| (s.entries (pageOfAddr a)).flags))).data j,
        g_count := (setFlags { s with req_pageno := pageOfAddr a } (pageOfAddr a)
          (PTF_DIRTY ||| (PTF_REF ||| (s.entries (pageOfAddr a)).flags))).g_count + 1 }
        : Sys).page_rep_algo = Algo.aging then
          update_age_reset_ref { (setFlags { s with req_pageno := pageOfAddr a }
            (pageOfAddr a) (PTF_DIRTY ||| (PTF_REF ||| (s.entries (pageOfAddr a)).flags))) with
            data := fun j => if j = (s.entries (pageOfAddr a)).frame * (VMEM_PAGESIZE : Int)
                + offsetOfAddr a then d
              else (setFlags { s with req_pageno := pageOfAddr a } (pageOfAddr a)
                (PTF_DIRTY ||| (PTF_REF ||| (s.entries (pageOfAddr a)).flags))).data j,
            g_count := (setFlags { s with req_pageno := pageOfAddr a } (pageOfAddr a)
              (PTF_DIRTY ||| (PTF_REF ||| (s.entries (pageOfAddr a)).flags))).g_count + 1 }
        else { (setFlags { s with req_pageno := pageOfAddr a }
          (pageOfAddr a) (PTF_DIRTY ||| (PTF_REF ||| (s.entries (pageOfAddr a)).flags))) with
          data := fun j => if j = (s.entries (pageOfAddr a)).frame * (VMEM_PAGESIZE : Int)
              + offsetOfAddr a then d
            else (setFlags { s with req_pageno := pageOfAddr a } (pageOfAddr a)
              (PTF_DIRTY ||| (PTF_REF ||| (s.entries (pageOfAddr a)).flags))).data j,
          g_count := (setFlags { s with req_pageno := pageOfAddr a } (pageOfAddr a)
            (PTF_DIRTY ||| (PTF_REF ||| (s.entries (pageOfAddr a)).flags))).g_count + 1 })
        = Except.ok s' := heq
    cases heq
    obtain ⟨t1, t2, t3, t4, t5⟩ := access_tail_proj { (setFlags
      { s with req_pageno := pageOfAddr a } (pageOfAddr a)
      (PTF_DIRTY ||| (PTF_REF ||| (s.entries (pageOfAddr a)).flags))) with
      data := fun j => if j = (s.entries (pageOfAddr a)).frame * (VMEM_PAGESIZE : Int)
          + offsetOfAddr a then d
        else (setFlags { s with req_pageno := pageOfAddr a } (pageOfAddr a)
          (PTF_DIRTY ||| (PTF_REF ||| (s.entries (pageOfAddr a)).flags))).data j,
      g_count := (setFlags { s with req_pageno := pageOfAddr a } (pageOfAddr a)
        (PTF_DIRTY ||| (PTF_REF ||| (s.entries (pageOfAddr a)).flags))).g_count + 1 }
    refine ⟨?_, hp0, hp2, ?_, (s.entries (pageOfAddr a)).frame, hfr1, hfr2, ?_, ?_, ?_,
      fun _ => ⟨rfl, ?_⟩⟩
    · refine Inv_access_tail _ ?_
      exact Inv_of_frame_eq _ _ (fun q => rfl) rfl rfl hInv2
    · rw [t3]
      rfl
    · rw [t4]
      exact hfrS2
    · rw [t2]
      show (if (s.entries (pageOfAddr a)).frame * (VMEM_PAGESIZE : Int) + offsetOfAddr a =
          (s.entries (pageOfAddr a)).frame * (VMEM_PAGESIZE : Int) + offsetOfAddr a then d
        else _) = d
      rw [if_pos rfl]
    · intro j hj
      rw [t2]
      have hne : ¬ (j = (s.entries (pageOfAddr a)).frame * (VMEM_PAGESIZE : Int)
          + offsetOfAddr a) := by
        rw [hps] at hj ⊢
        omega
      show (if j = (s.entries (pageOfAddr a)).frame * (VMEM_PAGESIZE : Int)
          + offsetOfAddr a then d else _) = s.data j
      rw [if_neg hne]
      rfl
    · intro j hj
      rw [t2]
      show (if j = (s.entries (pageOfAddr a)).frame * (VMEM_PAGESIZE : Int)
          + offsetOfAddr a then d else _) = s.data j
      rw [if_neg hj]
      rfl

/-- A successful `vmem_read s a` keeps the invariant, bumps the access
counter, leaves the requested page resident in an in-range frame `fr` and
confines data changes to frame `fr`'s window; when the page was already
resident nothing in the frame data changes and the value returned is the
word at the physical address. -/
theorem vmem_read_effects (s s' : Sys) (a v : Int) (hInv : Inv s)
    (heq : vmem_read s a = .ok (s', v)) :
    Inv s' ∧ 0 ≤ pageOfAddr a ∧ pageOfAddr a < (VMEM_NPAGES : Int) ∧
    s'.g_count = s.g_count + 1 ∧
    ∃ fr : Int, 0 ≤ fr ∧ fr < (VMEM_NFRAMES : Int) ∧
      (s'.entries (pageOfAddr a)).frame = fr ∧
      (∀ j : Int, (j < fr * (VMEM_PAGESIZE : Int) ∨
          fr * (VMEM_PAGESIZE : Int) + (VMEM_PAGESIZE : Int) ≤ j) →
        s'.data j = s.data j) ∧
      ((s.entries (pageOfAddr a)).frame ≠ VOID_IDX →
        fr = (s.entries (pageOfAddr a)).frame ∧ s'.data = s.data ∧
        v = s.data (fr * (VMEM_PAGESIZE : Int) + offsetOfAddr a)) := by
  have hps : (VMEM_PAGESIZE : Int) = 8 := rfl
  obtain ⟨ho1, ho2⟩ := offsetOfAddr_range a
  by_cases hb0 : pageOfAddr a < 0
  · simp only [vmem_read] at heq
    rw [if_pos hb0] at heq
    exact Except.noConfusion heq
  by_cases hb1 : (VMEM_NPAGES : Int) ≤ pageOfAddr a
  · simp only [vmem_read] at heq
    rw [if_neg hb0, if_pos hb1] at heq
    exact Except.noConfusion heq
  have hp0 : 0 ≤ pageOfAddr a := not_lt.mp hb0
  have hp2 : pageOfAddr a < (VMEM_NPAGES : Int) := not_le.mp hb1
  have hInv1 : Inv { s with req_pageno := pageOfAddr a } :=
    Inv_of_frame_eq s _ (fun q => rfl) rfl rfl hInv
  have hInv2 : Inv (setFlags { s with req_pageno := pageOfAddr a } (pageOfAddr a)
      (PTF_REF ||| (s.entries (pageOfAddr a)).flags)) :=
    Inv_setFlags _ _ _ hInv1
  simp only [vmem_read] at heq
  rw [if_neg hb0, if_neg hb1] at heq
  by_cases hres : (s.entries (pageOfAddr a)).frame = VOID_IDX
  · -- fault branch
    rw [if_pos hres] at heq
    obtain ⟨s3, idx, hhf, hi1, hi2, hInv3, hreq3, hg3, halgo3, hfr3x, hdata3⟩ :=
      handle_fault_spec (setFlags { s with req_pageno := pageOfAddr a } (pageOfAddr a)
        (PTF_REF ||| (s.entries (pageOfAddr a)).flags)) hInv2
        (show (0:Int) ≤ pageOfAddr a from hp0)
        (show pageOfAddr a < (VMEM_NPAGES : Int) from hp2)
        (by
          show ((setFlags { s with req_pageno := pageOfAddr a } (pageOfAddr a)
            (PTF_REF ||| (s.entries (pageOfAddr a)).flags)).entries
            (pageOfAddr a)).frame = VOID_IDX
          simp only [setFlags, setEntry]
          simp [hres])
    have hfr3 : (s3.entries (pageOfAddr a)).frame = idx := hfr3x
    rw [hhf] at heq
    dsimp only at heq
    rw [hfr3] at heq
    have hph0 : ¬ (idx * (VMEM_PAGESIZE : Int) + offsetOfAddr a < 0) := by
      rw [hps]
      omega
    have hph1 : ¬ ((128 : Int) ≤ idx * (VMEM_PAGESIZE : Int) + offsetOfAddr a) := by
      rw [hps]
      simp only [VMEM_NFRAMES] at hi2
      omega
    rw [if_neg hph0, if_neg hph1] at heq
    replace heq : Except.ok ((if ({ s3 with g_count := s3.g_count + 1 }
        : Sys).page_rep_algo = Algo.aging then
          update_age_reset_ref { s3 with g_count := s3.g_count + 1 }
        else { s3 with g_count := s3.g_count + 1 }),
        s3.data (idx * (VMEM_PAGESIZE : Int) + offsetOfAddr a)) = Except.ok (s', v) := heq
    cases heq
    obtain ⟨t1, t2, t3, t4, t5⟩ := access_tail_proj { s3 with g_count := s3.g_count + 1 }
    have hg3' : s3.g_count = s.g_count := hg3
    refine ⟨?_, hp0, hp2, ?_, idx, hi1, hi2, ?_, ?_, fun hcon => absurd hres hcon⟩
    · refine Inv_access_tail _ ?_
      exact Inv_of_frame_eq s3 _ (fun q => rfl) rfl rfl hInv3
    · rw [t3]
      show s3.g_count + 1 = s.g_count + 1
      rw [hg3']
    · rw [t4]
      exact hfr3
    · intro j hj
      rw [t2]
      have hd3 : s3.data j = s.data j := hdata3 j hj
      exact hd3
  · -- resident branch
    rw [if_neg hres] at heq
    dsimp only at heq
    rcases hInv.1 (pageOfAddr a) hp0 hp2 with hv | ⟨hfr1, hfr2, _⟩
    · exact absurd hv hres
    have hfrS2 : ((setFlags { s with req_pageno := pageOfAddr a } (pageOfAddr a)
        (PTF_REF ||| (s.entries (pageOfAddr a)).flags)).entries
        (pageOfAddr a)).frame = (s.entries (pageOfAddr a)).frame := by
      simp only [setFlags, setEntry]
      simp
    rw [hfrS2] at heq
    have hph0 : ¬ ((s.entries (pageOfAddr a)).frame * (VMEM_PAGESIZE : Int)
        + offsetOfAddr a < 0) := by
      rw [hps]
      omega
    have hph1 : ¬ ((128 : Int) ≤ (s.entries (pageOfAddr a)).frame * (VMEM_PAGESIZE : Int)
        + offsetOfAddr a) := by
      rw [hps]
      simp only [VMEM_NFRAMES] at hfr2
      omega
    rw [if_neg hph0, if_neg hph1] at heq
    replace heq : Except.ok ((if ({ (setFlags { s with req_pageno := pageOfAddr a }
        (pageOfAddr a) (PTF_REF ||| (s.entries (pageOfAddr a)).flags)) with
        g_count := (setFlags { s with req_pageno := pageOfAddr a } (pageOfAddr a)
          (PTF_REF ||| (s.entries (pageOfAddr a)).flags)).g_count + 1 }
        : Sys).page_rep_algo = Algo.aging then
          update_age_reset_ref { (setFlags { s with req_pageno := pageOfAddr a }
            (pageOfAddr a) (PTF_REF ||| (s.entries (pageOfAddr a)).flags)) with
            g_count := (setFlags { s with req_pageno := pageOfAddr a } (pageOfAddr a)
              (PTF_REF ||| (s.entries (pageOfAddr a)).flags)).g_count + 1 }
        else { (setFlags { s with req_pageno := pageOfAddr a }
          (pageOfAddr a) (PTF_REF ||| (s.entries (pageOfAddr a)).flags)) with
          g_count := (setFlags { s with req_pageno := pageOfAddr a } (pageOfAddr a)
            (PTF_REF ||| (s.entries (pageOfAddr a)).flags)).g_count + 1 }),
        (setFlags { s with req_pageno := pageOfAddr a } (pageOfAddr a)
          (PTF_REF ||| (s.entries (pageOfAddr a)).flags)).data
          ((s.entries (pageOfAddr a)).frame * (VMEM_PAGESIZE : Int) + offsetOfAddr a))
        = Except.ok (s', v) := heq
    cases heq
    obtain ⟨t1, t2, t3, t4, t5⟩ := access_tail_proj { (setFlags
      { s with req_pageno := pageOfAddr a } (pageOfAddr a)
      (PTF_REF ||| (s.entries (pageOfAddr a)).flags)) with
      g_count := (setFlags { s with req_pageno := pageOfAddr a } (pageOfAddr a)
        (PTF_REF ||| (s.entries (pageOfAddr a)).flags)).g_count + 1 }
    refine ⟨?_, hp0, hp2, ?_, (s.entries (pageOfAddr a)).frame, hfr1, hfr2, ?_, ?_,
      fun _ => ⟨rfl, ?_, rfl⟩⟩
    · refine Inv_access_tail _ ?_
      exact Inv_of_frame_eq _ _ (fun q => rfl) rfl rfl hInv2
    · rw [t3]
      rfl
    · rw [t4]
      exact hfrS2
    · intro j hj
      rw [t2]
      rfl
    · rw [t2]
      rfl

/-- A `vmem_read` of an address whose page is resident succeeds without a
fault and returns the word of the occupied frame at the address's
offset. -/
theorem vmem_read_resident (s : Sys) (a : Int)
    (hp0 : 0 ≤ pageOfAddr a) (hp2 : pageOfAddr a < (VMEM_NPAGES : Int))
    (hfr1 : 0 ≤ (s.entries (pageOfAddr a)).frame)
    (hfr2 : (s.entries (pageOfAddr a)).frame < (VMEM_NFRAMES : Int)) :
    ∃ s3 : Sys, vmem_read s a = .ok (s3,
      s.data ((s.entries (pageOfAddr a)).frame * (VMEM_PAGESIZE : Int)
        + offsetOfAddr a)) := by
  have hps : (VMEM_PAGESIZE : Int) = 8 := rfl
  obtain ⟨ho1, ho2⟩ := offsetOfAddr_range a
  have hres : ¬ ((s.entries (pageOfAddr a)).frame = VOID_IDX) := by
    simp only [VOID_IDX]
    omega
  have hfrS2 : ((setFlags { s with req_pageno := pageOfAddr a } (pageOfAddr a)
      (PTF_REF ||| (s.entries (pageOfAddr a)).flags)).entries
      (pageOfAddr a)).frame = (s.entries (pageOfAddr a)).frame := by
    simp only [setFlags, setEntry]
    simp
  have hph0 : ¬ ((s.entries (pageOfAddr a)).frame * (VMEM_PAGESIZE : Int)
      + offsetOfAddr a < 0) := by
    rw [hps]
    omega
  have hph1 : ¬ ((128 : Int) ≤ (s.entries (pageOfAddr a)).frame * (VMEM_PAGESIZE : Int)
      + offsetOfAddr a) := by
    rw [hps]
    simp only [VMEM_NFRAMES] at hfr2
    omega
  exact ⟨_, by
    simp only [vmem_read]
    rw [if_neg (not_lt.mpr hp0), if_neg (not_le.mpr hp2), if_neg hres]
    dsimp only
    rw [hfrS2]
    rw [if_neg hph0, if_neg hph1]
    rfl⟩

/-- One client operation that leaves page `p` resident in frame `f` and is
not a write to the watched physical word `j0` of that frame keeps the
invariant and the word's content. -/
theorem doOp_keeps (s s1 : Sys) (op : Op) (p f j0 : Int) (hInv : Inv s)
    (hp1 : 0 ≤ p) (hp2 : p < (VMEM_NPAGES : Int))
    (hf1 : 0 ≤ f) (hf2 : f < (VMEM_NFRAMES : Int))
    (hres : (s.entries p).frame = f)
    (hj1 : f * (VMEM_PAGESIZE : Int) ≤ j0)
    (hj2 : j0 < f * (VMEM_PAGESIZE : Int) + (VMEM_PAGESIZE : Int))
    (hop : ∀ b w : Int, op = Op.write b w →
      pageOfAddr b ≠ p ∨ f * (VMEM_PAGESIZE : Int) + offsetOfAddr b ≠ j0)
    (hdo : doOp s op = .ok s1)
    (hres1 : (s1.entries p).frame = f) :
    Inv s1 ∧ s1.data j0 = s.data j0 := by
  have hps : (VMEM_PAGESIZE : Int) = 8 := rfl
  have hfv : f ≠ VOID_IDX := by
    simp only [VOID_IDX]
    omega
  cases op with
  | read b =>
    rcases hvm : vmem_read s b with e | pr
    · rw [doOp, hvm] at hdo
      exact Except.noConfusion hdo
    · obtain ⟨s2, v⟩ := pr
      rw [doOp, hvm] at hdo
      cases hdo
      obtain ⟨hInv1, hpb1, hpb2, _, fr, hfr1, hfr2, hfrq, hwin, hfine⟩ :=
        vmem_read_effects s s1 b v hInv hvm
      refine ⟨hInv1, ?_⟩
      by_cases hpq : pageOfAddr b = p
      · have hneq : (s.entries (pageOfAddr b)).frame ≠ VOID_IDX := by
          rw [hpq, hres]
          exact hfv
        obtain ⟨_, hdeq, _⟩ := hfine hneq
        rw [hdeq]
      · have hfrne : fr ≠ f := by
          intro hcon
          apply hpq
          refine frame_unique_of_Inv hInv1 (pageOfAddr b) p hpb1 hpb2 hp1 hp2 ?_ ?_
          · rw [hfrq, hcon]
            exact hfv
          · rw [hfrq, hres1, hcon]
        apply hwin j0
        rw [hps] at hj1 hj2 ⊢
        simp only [VMEM_NFRAMES] at hf2 hfr2
        omega
  | write b w =>
    rw [doOp] at hdo
    obtain ⟨hInv1, hpb1, hpb2, _, fr, hfr1, hfr2, hfrq, _, hwin, hfine⟩ :=
      vmem_write_effects s s1 b w hInv hdo
    refine ⟨hInv1, ?_⟩
    by_cases hpq : pageOfAddr b = p
    · have hneq : (s.entries (pageOfAddr b)).frame ≠ VOID_IDX := by
        rw [hpq, hres]
        exact hfv
      obtain ⟨hfrf, hfine2⟩ := hfine hneq
      have hfr_f : fr = f := by
        rw [hfrf, hpq, hres]
      rcases hop b w rfl with hc | hc
      · exact absurd hpq hc
      · apply hfine2
        rw [hfr_f]
        exact fun hcon => hc hcon.symm
    · have hfrne : fr ≠ f := by
        intro hcon
        apply hpq
        refine frame_unique_of_Inv hInv1 (pageOfAddr b) p hpb1 hpb2 hp1 hp2 ?_ ?_
        · rw [hfrq, hcon]
          exact hfv
        · rw [hfrq, hres1, hcon]
      apply hwin j0
      rw [hps] at hj1 hj2 ⊢
      simp only [VMEM_NFRAMES] at hf2 hfr2
      omega

/-- Running a sequence of operations that never evicts page `p` from
frame `f` and never writes the watched word `j0` of that frame keeps the
invariant, the residency and the word. -/
theorem runOps_keeps (p f j0 : Int) (hp1 : 0 ≤ p) (hp2 : p < (VMEM_NPAGES : Int))
    (hf1 : 0 ≤ f) (hf2 : f < (VMEM_NFRAMES : Int))
    (hj1 : f * (VMEM_PAGESIZE : Int) ≤ j0)
    (hj2 : j0 < f * (VMEM_PAGESIZE : Int) + (VMEM_PAGESIZE : Int)) :
    ∀ (ops : List Op) (s s' : Sys), Inv s → (s.entries p).frame = f →
      (∀ b w : Int, Op.write b w ∈ ops →
        pageOfAddr b ≠ p ∨ f * (VMEM_PAGESIZE : Int) + offsetOfAddr b ≠ j0) →
      runOps s ops = .ok s' → keepsResident p f s ops = true →
      Inv s' ∧ (s'.entries p).frame = f ∧ s'.data j0 = s.data j0 := by
  intro ops
  induction ops with
  | nil =>
    intro s s' hInv hres hop hrun hkeep
    rw [runOps] at hrun
    cases hrun
    exact ⟨hInv, hres, rfl⟩
  | cons op rest ih =>
    intro s s' hInv hres hop hrun hkeep
    rw [runOps] at hrun
    rw [keepsResident] at hkeep
    rcases hdo : doOp s op with e | s1
    · rw [hdo] at hkeep
      simp at hkeep
    · rw [hdo] at hrun hkeep
      dsimp only at hrun hkeep
      rw [Bool.and_eq_true] at hkeep
      obtain ⟨hbeq, hkrest⟩ := hkeep
      have hres1 : (s1.entries p).frame = f := eq_of_beq hbeq
      obtain ⟨hInv1, hdata1⟩ := doOp_keeps s s1 op p f j0 hInv hp1 hp2 hf1 hf2 hres
        hj1 hj2 (fun b w hbw => hop b w (by rw [← hbw]; exact List.mem_cons_self _ _))
        hdo hres1
      obtain ⟨hInv', hres', hdata'⟩ := ih s1 s' hInv1 hres1
        (fun b w hbw => hop b w (List.mem_cons_of_mem _ hbw)) hrun hkrest
      exact ⟨hInv', hres', by rw [hdata', hdata1]⟩

/-! ### Characterisation of the aging decay pass. -/

/-- Injectivity of the reverse map on occupied frames (a consequence of
the invariant; free frames may share the `VOID_IDX` sentinel). -/
def FpInjOcc (s : Sys) : Prop :=
  ∀ g g' : Int, 0 ≤ g → g < (VMEM_NFRAMES : Int) → 0 ≤ g' → g' < (VMEM_NFRAMES : Int) →
    s.framepage g ≠ VOID_IDX → s.framepage g = s.framepage g' → g = g'

theorem fpInjOcc_of_Inv {s : Sys} (h : Inv s) : FpInjOcc s := by
  intro g g' h1 h2 h3 h4 hocc heq
  rcases h.2.1 g h1 h2 with hv | ⟨_, _, c⟩
  · exact absurd hv hocc
  · rcases h.2.1 g' h3 h4 with hv' | ⟨_, _, c'⟩
    · rw [heq] at hocc
      exact absurd hv' hocc
    · rw [heq] at c
      rw [c] at c'
      exact c'

/-- The frame loop of the decay pass applies `agePass` exactly to the
pages occupying a frame in `[i, VMEM_NFRAMES)` and touches no other
entry. -/
theorem age_pass_loop_entries :
    ∀ (n i : Nat) (s : Sys), VMEM_NFRAMES - i = n → FpInjOcc s →
      ∀ q : Int,
        ((∃ g : Nat, i ≤ g ∧ g < VMEM_NFRAMES ∧ s.framepage (g : Int) = q ∧ q ≠ VOID_IDX) →
          (age_pass_loop s i).entries q = agePass (s.entries q)) ∧
        (¬ (∃ g : Nat, i ≤ g ∧ g < VMEM_NFRAMES ∧ s.framepage (g : Int) = q ∧
            q ≠ VOID_IDX) →
          (age_pass_loop s i).entries q = s.entries q) := by
  intro n
  induction n with
  | zero =>
    intro i s hi hinj q
    have hge : ¬ i < VMEM_NFRAMES := by omega
    rw [age_pass_loop, if_neg hge]
    constructor
    · rintro ⟨g, hg1, hg2, _, _⟩
      exact absurd hg2 (by omega)
    · intro _
      rfl
  | succ n ih =>
    intro i s hi hinj q
    have hlt : i < VMEM_NFRAMES := by
      simp only [VMEM_NFRAMES] at *
      omega
    have hilt : (i : Int) < (VMEM_NFRAMES : Int) := by exact_mod_cast hlt
    have hi0 : (0 : Int) ≤ (i : Int) := Int.natCast_nonneg i
    rw [age_pass_loop, if_pos hlt]
    by_cases hv : s.framepage (i : Int) = VOID_IDX
    · simp only [if_pos hv]
      obtain ⟨ih1, ih2⟩ := ih (i + 1) s (by omega) hinj q
      constructor
      · rintro ⟨g, hg1, hg2, hg3, hq⟩
        rcases Nat.eq_or_lt_of_le hg1 with rfl | hgt
        · rw [hv] at hg3
          exact absurd hg3.symm hq
        · exact ih1 ⟨g, hgt, hg2, hg3, hq⟩
      · intro hnex
        refine ih2 ?_
        rintro ⟨g, hg1, hg2, hg3, hq⟩
        exact hnex ⟨g, by omega, hg2, hg3, hq⟩
    · simp only [if_neg hv]
      have hinj' : FpInjOcc (setEntry s (s.framepage (i : Int))
          (agePass (s.entries (s.framepage (i : Int))))) := by
        intro g g' a b c d hocc heq
        exact hinj g g' a b c d hocc heq
      obtain ⟨ih1, ih2⟩ := ih (i + 1) (setEntry s (s.framepage (i : Int))
        (agePass (s.entries (s.framepage (i : Int))))) (by omega) hinj' q
      have hfp' : ∀ g : Nat, (setEntry s (s.framepage (i : Int))
          (agePass (s.entries (s.framepage (i : Int))))).framepage (g : Int) =
          s.framepage (g : Int) := fun g => rfl
      constructor
      · rintro ⟨g, hg1, hg2, hg3, hq⟩
        by_cases hqp : q = s.framepage (i : Int)
        · -- the page aged at this iteration: later iterations skip it
          have hnex : ¬ (∃ g' : Nat, i + 1 ≤ g' ∧ g' < VMEM_NFRAMES ∧
              (setEntry s (s.framepage (i : Int))
                (agePass (s.entries (s.framepage (i : Int))))).framepage (g' : Int) = q ∧
              q ≠ VOID_IDX) := by
            rintro ⟨g', hg1', hg2', hg3', hq'⟩
            rw [hfp'] at hg3'
            have hocc : s.framepage (g' : Int) ≠ VOID_IDX := by
              rw [hg3']
              exact hq'
            have hg2'' : (g' : Int) < (VMEM_NFRAMES : Int) := by exact_mod_cast hg2'
            have heqfp : s.framepage ((g' : Nat) : Int) = s.framepage (i : Int) := by
              rw [hg3', hqp]
            have := hinj (g' : Int) (i : Int) (Int.natCast_nonneg g') hg2'' hi0 hilt
              hocc heqfp
            have : (g' : Nat) = i := by exact_mod_cast this
            omega
          rw [ih2 hnex]
          show (if q = s.framepage (i : Int) then _ else s.entries q) = _
          rw [if_pos hqp, hqp]
        · -- untouched at this iteration, aged later
          have hgne : g ≠ i := by
            intro hcon
            rw [hcon] at hg3
            exact hqp hg3.symm
          have hstep : (setEntry s (s.framepage (i : Int))
              (agePass (s.entries (s.framepage (i : Int))))).entries q = s.entries q := by
            show (if q = s.framepage (i : Int) then _ else s.entries q) = s.entries q
            rw [if_neg hqp]
          rw [ih1 ⟨g, by omega, hg2, by rw [hfp']; exact hg3, hq⟩, hstep]
      · intro hnex
        have hqp : q ≠ s.framepage (i : Int) := by
          intro hcon
          exact hnex ⟨i, le_refl i, hlt, hcon.symm, by rw [hcon]; exact hv⟩
        have hstep : (setEntry s (s.framepage (i : Int))
            (agePass (s.entries (s.framepage (i : Int))))).entries q = s.entries q := by
          show (if q = s.framepage (i : Int) then _ else s.entries q) = s.entries q
          rw [if_neg hqp]
        have hnex' : ¬ (∃ g : Nat, i + 1 ≤ g ∧ g < VMEM_NFRAMES ∧
            (setEntry s (s.framepage (i : Int))
              (agePass (s.entries (s.framepage (i : Int))))).framepage (g : Int) = q ∧
            q ≠ VOID_IDX) := by
          rintro ⟨g, hg1, hg2, hg3, hq⟩
          rw [hfp'] at hg3
          exact hnex ⟨g, by omega, hg2, hg3, hq⟩
        rw [ih2 hnex', hstep]

/-- When the access counter triggers it, the decay pass applies `agePass`
to every resident page and leaves every non-resident page's entry
untouched. -/
theorem update_age_reset_ref_spec (s : Sys) (hInv : Inv s)
    (hg : s.g_count % UPDATE_AGE_COUNT = 0) :
    ∀ p : Int, 0 ≤ p → p < (VMEM_NPAGES : Int) →
      ((s.entries p).frame ≠ VOID_IDX →
        (update_age_reset_ref s).entries p = agePass (s.entries p)) ∧
      ((s.entries p).frame = VOID_IDX →
        (update_age_reset_ref s).entries p = s.entries p) := by
  have heq : update_age_reset_ref s = age_pass_loop s 0 := by
    rw [update_age_reset_ref, if_pos hg]
  intro p hp1 hp2
  have hloop := age_pass_loop_entries VMEM_NFRAMES 0 s rfl (fpInjOcc_of_Inv hInv) p
  constructor
  · intro hres
    rw [heq]
    rcases hInv.1 p hp1 hp2 with hv | ⟨ha, hb, hc⟩
    · exact absurd hv hres
    · refine hloop.1 ⟨((s.entries p).frame).toNat, Nat.zero_le _, ?_, ?_, ?_⟩
      · simp only [VMEM_NFRAMES] at hb ⊢
        omega
      · rw [Int.toNat_of_nonneg ha]
        exact hc
      · simp only [VOID_IDX]
        omega
  · intro hres
    rw [heq]
    refine hloop.2 ?_
    rintro ⟨g, _, hg2, hg3, hq⟩
    have hg0 : (0:Int) ≤ (g:Int) := Int.natCast_nonneg g
    have hg2' : (g:Int) < (VMEM_NFRAMES:Int) := by exact_mod_cast hg2
    rcases hInv.2.1 (g:Int) hg0 hg2' with hv | ⟨_, _, hc⟩
    · rw [hg3] at hv
      exact hq hv
    · rw [hg3] at hc
      rw [hres] at hc
      simp only [VOID_IDX] at hc
      omega

/-- A `vmem_write` to an address whose page is resident succeeds. -/
theorem vmem_write_resident_ok (s : Sys) (a d : Int)
    (hp0 : 0 ≤ pageOfAddr a) (hp2 : pageOfAddr a < (VMEM_NPAGES : Int))
    (hfr1 : 0 ≤ (s.entries (pageOfAddr a)).frame)
    (hfr2 : (s.entries (pageOfAddr a)).frame < (VMEM_NFRAMES : Int)) :
    ∃ s1 : Sys, vmem_write s a d = .ok s1 := by
  have hps : (VMEM_PAGESIZE : Int) = 8 := rfl
  obtain ⟨ho1, ho2⟩ := offsetOfAddr_range a
  have hres : ¬ ((s.entries (pageOfAddr a)).frame = VOID_IDX) := by
    simp only [VOID_IDX]
    omega
  have hfrS2 : ((setFlags { s with req_pageno := pageOfAddr a } (pageOfAddr a)
      (PTF_DIRTY ||| (PTF_REF ||| (s.entries (pageOfAddr a)).flags))).entries
      (pageOfAddr a)).frame = (s.entries (pageOfAddr a)).frame := by
    simp only [setFlags, setEntry]
    simp
  have hph0 : ¬ ((s.entries (pageOfAddr a)).frame * (VMEM_PAGESIZE : Int)
      + offsetOfAddr a < 0) := by
    rw [hps]
    omega
  have hph1 : ¬ ((128 : Int) ≤ (s.entries (pageOfAddr a)).frame * (VMEM_PAGESIZE : Int)
      + offsetOfAddr a) := by
    rw [hps]
    simp only [VMEM_NFRAMES] at hfr2
    omega
  exact ⟨_, by
    simp only [vmem_write]
    rw [if_neg (not_lt.mpr hp0), if_neg (not_le.mpr hp2), if_neg hres]
    dsimp only
    rw [hfrS2]
    rw [if_neg hph0, if_neg hph1]⟩

theorem pageOfAddr_zero : pageOfAddr 0 = 0 := by
  have h := pageOfAddr_ofNat 0
  simpa using h

theorem offsetOfAddr_zero : offsetOfAddr 0 = 0 := by
  have h := offsetOfAddr_ofNat 0
  simpa using h

/-! ### The claims. -/

/-- C1: After every completed fault handling, the frame table and the
page table frame fields are mutually consistent: for every occupied
frame table slot `i` (holding page `p`), exactly one page table entry
has `frame = i`, namely entry `p`, and no two page table entries
reference the same frame. -/
theorem C1_fault_table_consistency (s : Sys) (hInv : Inv s)
    (hreq1 : 0 ≤ s.req_pageno) (hreq2 : s.req_pageno < (VMEM_NPAGES : Int))
    (hnr : (s.entries s.req_pageno).frame = VOID_IDX) :
    ∃ s' : Sys, allocate_page s = .ok s' ∧ consistent s' ∧
      (∀ p q : Int, 0 ≤ p → p < (VMEM_NPAGES : Int) → 0 ≤ q → q < (VMEM_NPAGES : Int) →
        (s'.entries p).frame ≠ VOID_IDX → (s'.entries p).frame = (s'.entries q).frame →
        p = q) := by
  obtain ⟨s', idx, heq, hi1, hi2, hfr, hfp, hInv', hreq', hpf, hg, halgo, hsem, hdata,
    hfree, hevict⟩ := allocate_page_spec s hInv hreq1 hreq2 hnr
  exact ⟨s', heq, consistent_of_Inv hInv', frame_unique_of_Inv hInv'⟩

theorem C1_fault_table_consistency_witness :
    Inv (fullSys Algo.fifo) ∧ 0 ≤ (fullSys Algo.fifo).req_pageno ∧
    (fullSys Algo.fifo).req_pageno < (VMEM_NPAGES : Int) ∧
    ((fullSys Algo.fifo).entries (fullSys Algo.fifo).req_pageno).frame = VOID_IDX ∧
    (∃ s' : Sys, allocate_page (fullSys Algo.fifo) = .ok s' ∧ consistent s' ∧
      (∀ p q : Int, 0 ≤ p → p < (VMEM_NPAGES : Int) → 0 ≤ q → q < (VMEM_NPAGES : Int) →
        (s'.entries p).frame ≠ VOID_IDX → (s'.entries p).frame = (s'.entries q).frame →
        p = q)) :=
  ⟨Inv_fullSys _, by decide, by decide, by decide,
    C1_fault_table_consistency (fullSys Algo.fifo) (Inv_fullSys _) (by decide) (by decide)
      (by decide)⟩

/-- C2: Every fault bumps the fault counter; a free frame (smallest
index first) is used when one exists and then nothing is read from the
swap store; only with no free frame does the replacement policy run, and
exactly then the requested page's contents are fetched from the swap
store into the chosen frame. -/
theorem C2_fault_counting_and_fetch (s : Sys) (hInv : Inv s)
    (hreq1 : 0 ≤ s.req_pageno) (hreq2 : s.req_pageno < (VMEM_NPAGES : Int))
    (hnr : (s.entries s.req_pageno).frame = VOID_IDX) :
    ∃ (s' : Sys) (idx : Int), allocate_page s = .ok s' ∧
      s'.pf_count = s.pf_count + 1 ∧
      0 ≤ idx ∧ idx < (VMEM_NFRAMES : Int) ∧
      (s'.entries s.req_pageno).frame = idx ∧
      (find_free_frame s ≠ VOID_IDX →
        idx = find_free_frame s ∧ s.framepage idx = VOID_IDX ∧
        (∀ g : Int, 0 ≤ g → g < idx → s.framepage g ≠ VOID_IDX) ∧
        s'.events = s.events ++ [Event.semPost] ∧ s'.data = s.data) ∧
      (find_free_frame s = VOID_IDX →
        (∀ o : Int, 0 ≤ o → o < (VMEM_PAGESIZE : Int) →
          s'.data (idx * (VMEM_PAGESIZE : Int) + o) =
            s.swap (s.req_pageno * (VMEM_PAGESIZE : Int) + o)) ∧
        ∃ mid : List Event,
          s'.events = s.events ++ (mid ++ [Event.fetch s.req_pageno, Event.semPost])) := by
  obtain ⟨s', idx, heq, hi1, hi2, hfr, hfp, hInv', hreq', hpf, hg, halgo, hsem, hdata,
    hfree, hevict⟩ := allocate_page_spec s hInv hreq1 hreq2 hnr
  refine ⟨s', idx, heq, hpf, hi1, hi2, ?_, ?_, ?_⟩
  · have hx := hfr s.req_pageno hreq1 hreq2
    rw [if_pos rfl] at hx
    exact hx
  · intro hc
    obtain ⟨ha, hb, hcg, hd, he, _⟩ := hfree hc
    exact ⟨ha, hb, hcg, hd, he⟩
  · intro hc
    obtain ⟨_, hdat, mid, hev, _⟩ := hevict hc
    exact ⟨hdat, mid, hev⟩

theorem C2_fault_counting_and_fetch_witness :
    Inv (fullSys Algo.aging) ∧ 0 ≤ (fullSys Algo.aging).req_pageno ∧
    (fullSys Algo.aging).req_pageno < (VMEM_NPAGES : Int) ∧
    ((fullSys Algo.aging).entries (fullSys Algo.aging).req_pageno).frame = VOID_IDX ∧
    (∃ (s' : Sys) (idx : Int), allocate_page (fullSys Algo.aging) = .ok s' ∧
      s'.pf_count = (fullSys Algo.aging).pf_count + 1 ∧
      0 ≤ idx ∧ idx < (VMEM_NFRAMES : Int) ∧
      (s'.entries (fullSys Algo.aging).req_pageno).frame = idx ∧
      (find_free_frame (fullSys Algo.aging) ≠ VOID_IDX →
        idx = find_free_frame (fullSys Algo.aging) ∧
        (fullSys Algo.aging).framepage idx = VOID_IDX ∧
        (∀ g : Int, 0 ≤ g → g < idx → (fullSys Algo.aging).framepage g ≠ VOID_IDX) ∧
        s'.events = (fullSys Algo.aging).events ++ [Event.semPost] ∧
        s'.data = (fullSys Algo.aging).data) ∧
      (find_free_frame (fullSys Algo.aging) = VOID_IDX →
        (∀ o : Int, 0 ≤ o → o < (VMEM_PAGESIZE : Int) →
          s'.data (idx * (VMEM_PAGESIZE : Int) + o) =
            (fullSys Algo.aging).swap
              ((fullSys Algo.aging).req_pageno * (VMEM_PAGESIZE : Int) + o)) ∧
        ∃ mid : List Event,
          s'.events = (fullSys Algo.aging).events ++
            (mid ++ [Event.fetch (fullSys Algo.aging).req_pageno, Event.semPost]))) :=
  ⟨Inv_fullSys _, by decide, by decide, by decide,
    C2_fault_counting_and_fetch (fullSys Algo.aging) (Inv_fullSys _) (by decide) (by decide)
      (by decide)⟩

/-- C9: Within a fault-handling episode the page table (forward frame
field and reverse frame table slot) is fully updated to map the
requested page to the allocated frame, the counting semaphore is
released exactly once, and the release is the last recorded event — all
swap-store traffic of the episode precedes it. -/
theorem C9_publish_before_release (s : Sys) (hInv : Inv s)
    (hreq1 : 0 ≤ s.req_pageno) (hreq2 : s.req_pageno < (VMEM_NPAGES : Int))
    (hnr : (s.entries s.req_pageno).frame = VOID_IDX) :
    ∃ (s' : Sys) (idx : Int), allocate_page s = .ok s' ∧
      (s'.entries s.req_pageno).frame = idx ∧
      (∀ g : Int, s'.framepage g = if g = idx then s.req_pageno else s.framepage g) ∧
      s'.sem = s.sem + 1 ∧
      ∃ pre : List Event, s'.events = s.events ++ pre ++ [Event.semPost] ∧
        Event.semPost ∉ pre := by
  obtain ⟨s', idx, heq, hi1, hi2, hfr, hfp, hInv', hreq', hpf, hg, halgo, hsem, hdata,
    hfree, hevict⟩ := allocate_page_spec s hInv hreq1 hreq2 hnr
  refine ⟨s', idx, heq, ?_, hfp, hsem, ?_⟩
  · have hx := hfr s.req_pageno hreq1 hreq2
    rw [if_pos rfl] at hx
    exact hx
  · by_cases hc : find_free_frame s = VOID_IDX
    · obtain ⟨_, _, mid, hev, hmid⟩ := hevict hc
      refine ⟨mid ++ [Event.fetch s.req_pageno], ?_, ?_⟩
      · rw [hev]
        simp [List.append_assoc]
      · intro hmem
        rcases List.mem_append.mp hmem with hmem | hmem
        · by_cases hd : dirtySet s (s.framepage idx)
          · rw [if_pos hd] at hmid
            rw [hmid] at hmem
            simp at hmem
          · rw [if_neg hd] at hmid
            rw [hmid] at hmem
            simp at hmem
        · simp at hmem
    · obtain ⟨_, _, _, hev, _, _⟩ := hfree hc
      refine ⟨[], ?_, ?_⟩
      · rw [hev]
        simp
      · simp

theorem C9_publish_before_release_witness :
    Inv (fullSys Algo.clock) ∧ 0 ≤ (fullSys Algo.clock).req_pageno ∧
    (fullSys Algo.clock).req_pageno < (VMEM_NPAGES : Int) ∧
    ((fullSys Algo.clock).entries (fullSys Algo.clock).req_pageno).frame = VOID_IDX ∧
    (∃ (s' : Sys) (idx : Int), allocate_page (fullSys Algo.clock) = .ok s' ∧
      (s'.entries (fullSys Algo.clock).req_pageno).frame = idx ∧
      (∀ g : Int, s'.framepage g =
        if g = idx then (fullSys Algo.clock).req_pageno
        else (fullSys Algo.clock).framepage g) ∧
      s'.sem = (fullSys Algo.clock).sem + 1 ∧
      ∃ pre : List Event, s'.events = (fullSys Algo.clock).events ++ pre ++
          [Event.semPost] ∧ Event.semPost ∉ pre) :=
  ⟨Inv_fullSys _, by decide, by decide, by decide,
    C9_publish_before_release (fullSys Algo.clock) (Inv_fullSys _) (by decide) (by decide)
      (by decide)⟩

/-- C10: After `vmem_init` and before any fault, every page table entry
is not resident with zero flags and the default age `0x80`, every frame
table slot is free, the fault and access counters are zero, and the
semaphore is in the not-yet-signaled state (count 0). -/
theorem C10_init_state (w : Int → Int) :
    (∀ p : Int, 0 ≤ p → p < (VMEM_NPAGES : Int) →
      ((vmem_init w).entries p).frame = VOID_IDX ∧
      ((vmem_init w).entries p).flags = 0 ∧
      ((vmem_init w).entries p).age = 0x80) ∧
    (∀ f : Int, 0 ≤ f → f < (VMEM_NFRAMES : Int) →
      (vmem_init w).framepage f = VOID_IDX) ∧
    (vmem_init w).pf_count = 0 ∧ (vmem_init w).g_count = 0 ∧
    (vmem_init w).sem = 0 := by
  obtain ⟨h1, h2, h3, _, _, _⟩ := vmem_init_admin w
  refine ⟨?_, fun f hf1 hf2 => vmem_init_framepage w f hf1 hf2, h1, h2, h3⟩
  intro p hp1 hp2
  rw [vmem_init_entries w p hp1 hp2]
  exact ⟨rfl, rfl, rfl⟩

/-- The pagefile contents used to instantiate `vmem_init` concretely. -/
def zeroSwap : Int → Int := fun _ => 0

theorem C10_init_state_witness :
    0 ≤ (0 : Int) ∧ (0 : Int) < (VMEM_NPAGES : Int) ∧
    ((vmem_init zeroSwap).entries 0).frame = VOID_IDX ∧
    (vmem_init zeroSwap).framepage 0 = VOID_IDX ∧
    (vmem_init zeroSwap).pf_count = 0 :=
  ⟨by decide, by decide,
    ((C10_init_state zeroSwap).1 0 (by decide) (by decide)).1,
    (C10_init_state zeroSwap).2.1 0 (by decide) (by decide),
    (C10_init_state zeroSwap).2.2.1⟩

/-- C3: Under every policy the victim page is written back to its swap
slot before its frame is reused exactly when its DIRTY flag is set
(recorded as a `store` event carrying the frame's current contents; a
clean victim generates no swap traffic), and the victim's page table
entry is marked not resident. -/
theorem C3_eviction_writeback (s : Sys) (hinj : FpInj s)
    (hcur : -1 ≤ s.fifo_current ∧ s.fifo_current < (VMEM_NFRAMES : Int)) :
    ∃ (s' : Sys) (idx : Int), find_remove_frame s = .ok (s', idx) ∧
      0 ≤ idx ∧ idx < (VMEM_NFRAMES : Int) ∧
      (s'.entries (s.framepage idx)).frame = VOID_IDX ∧
      (dirtySet s (s.framepage idx) →
        s'.events = s.events ++ [Event.store (s.framepage idx)] ∧
        (∀ j : Int, s.framepage idx * (VMEM_PAGESIZE : Int) ≤ j →
          j < s.framepage idx * (VMEM_PAGESIZE : Int) + (VMEM_PAGESIZE : Int) →
          s'.swap j = s.data (idx * (VMEM_PAGESIZE : Int) +
            (j - s.framepage idx * (VMEM_PAGESIZE : Int))))) ∧
      (¬ dirtySet s (s.framepage idx) →
        s'.events = s.events ∧ s'.swap = s.swap) := by
  obtain ⟨s', idx, heq, hok⟩ := find_remove_frame_spec s hinj hcur
  refine ⟨s', idx, heq, hok.idx_nonneg, hok.idx_lt, ?_, ?_, hok.wb_clean⟩
  · have hx := hok.frame_eq (s.framepage idx)
    rw [if_pos rfl] at hx
    exact hx
  · intro hd
    obtain ⟨he, hsw, _⟩ := hok.wb_dirty hd
    exact ⟨he, hsw⟩

theorem C3_eviction_writeback_witness :
    FpInj (fullSys Algo.fifo) ∧
    (-1 ≤ (fullSys Algo.fifo).fifo_current ∧
      (fullSys Algo.fifo).fifo_current < (VMEM_NFRAMES : Int)) ∧
    (∃ (s' : Sys) (idx : Int), find_remove_frame (fullSys Algo.fifo) = .ok (s', idx) ∧
      0 ≤ idx ∧ idx < (VMEM_NFRAMES : Int) ∧
      (s'.entries ((fullSys Algo.fifo).framepage idx)).frame = VOID_IDX ∧
      (dirtySet (fullSys Algo.fifo) ((fullSys Algo.fifo).framepage idx) →
        s'.events = (fullSys Algo.fifo).events ++
          [Event.store ((fullSys Algo.fifo).framepage idx)] ∧
        (∀ j : Int, (fullSys Algo.fifo).framepage idx * (VMEM_PAGESIZE : Int) ≤ j →
          j < (fullSys Algo.fifo).framepage idx * (VMEM_PAGESIZE : Int)
            + (VMEM_PAGESIZE : Int) →
          s'.swap j = (fullSys Algo.fifo).data (idx * (VMEM_PAGESIZE : Int) +
            (j - (fullSys Algo.fifo).framepage idx * (VMEM_PAGESIZE : Int))))) ∧
      (¬ dirtySet (fullSys Algo.fifo) ((fullSys Algo.fifo).framepage idx) →
        s'.events = (fullSys Algo.fifo).events ∧ s'.swap = (fullSys Algo.fifo).swap)) :=
  ⟨FpInj_fullSys _, ⟨by decide, by decide⟩,
    C3_eviction_writeback (fullSys Algo.fifo) (FpInj_fullSys _) ⟨by decide, by decide⟩⟩

/-- C4 (amended): with in-range stored ages the AGING policy evicts an
occupying page of minimal age, but ties are resolved towards the
HIGHEST frame index (the scan uses `<=`, so the last minimum wins —
not the lowest index the spec promises); the evicted page's age is reset
to the initial `0x80` and the entry is marked not resident. -/
theorem C4_aging_min_victim (s : Sys)
    (hcur : -1 ≤ s.fifo_current ∧ s.fifo_current < (VMEM_NFRAMES : Int))
    (hages : ∀ g : Nat, g < VMEM_NFRAMES → ageAt s g ≤ UCHAR_MAX) :
    ∃ (s' : Sys) (f : Nat), f < VMEM_NFRAMES ∧
      find_remove_aging s = (s', (f : Int)) ∧
      (∀ g : Nat, g < VMEM_NFRAMES → ageAt s f ≤ ageAt s g) ∧
      (∀ g : Nat, g < VMEM_NFRAMES → ageAt s g = ageAt s f → g ≤ f) ∧
      (s'.entries (s.framepage (f : Int))).age = 0x80 ∧
      (s'.entries (s.framepage (f : Int))).frame = VOID_IDX := by
  obtain ⟨s', f, hf, heq, hok, hmin, htie, hage⟩ := find_remove_aging_spec s hcur hages
  refine ⟨s', f, hf, heq, hmin, htie, hage, ?_⟩
  have hx := hok.frame_eq (s.framepage (f : Int))
  rw [if_pos rfl] at hx
  exact hx

/-- C4 counterexample: in a state with all sixteen frames occupied and
every age equal, the code evicts frame 15 — the claimed lowest-index tie
break would pick frame 0. -/
theorem C4_counterexample :
    (∀ g : Nat, g < VMEM_NFRAMES → ageAt (fullSys Algo.aging) g = 0x80) ∧
    (∀ g : Nat, g < VMEM_NFRAMES →
      (fullSys Algo.aging).framepage (g : Int) ≠ VOID_IDX) ∧
    (find_remove_aging (fullSys Algo.aging)).2 = 15 := by
  have hall : ∀ g : Nat, g < VMEM_NFRAMES → ageAt (fullSys Algo.aging) g = 0x80 := by
    decide
  refine ⟨hall, by decide, ?_⟩
  obtain ⟨s', f, hf, heq, _, _, htie, _⟩ := find_remove_aging_spec (fullSys Algo.aging)
    ⟨by decide, by decide⟩ (by decide)
  have h15lt : (15 : Nat) < VMEM_NFRAMES := by
    simp only [VMEM_NFRAMES]
    omega
  have h15 : (15 : Nat) ≤ f := by
    refine htie 15 h15lt ?_
    rw [hall 15 h15lt, hall f hf]
  have hf15 : f = 15 := by
    simp only [VMEM_NFRAMES] at hf
    omega
  rw [heq, hf15]
  simp

theorem C4_aging_min_victim_witness :
    (-1 ≤ (fullSys Algo.aging).fifo_current ∧
      (fullSys Algo.aging).fifo_current < (VMEM_NFRAMES : Int)) ∧
    (∀ g : Nat, g < VMEM_NFRAMES → ageAt (fullSys Algo.aging) g ≤ UCHAR_MAX) ∧
    (∃ (s' : Sys) (f : Nat), f < VMEM_NFRAMES ∧
      find_remove_aging (fullSys Algo.aging) = (s', (f : Int)) ∧
      (∀ g : Nat, g < VMEM_NFRAMES →
        ageAt (fullSys Algo.aging) f ≤ ageAt (fullSys Algo.aging) g) ∧
      (∀ g : Nat, g < VMEM_NFRAMES →
        ageAt (fullSys Algo.aging) g = ageAt (fullSys Algo.aging) f → g ≤ f) ∧
      (s'.entries ((fullSys Algo.aging).framepage (f : Int))).age = 0x80 ∧
      (s'.entries ((fullSys Algo.aging).framepage (f : Int))).frame = VOID_IDX) :=
  ⟨⟨by decide, by decide⟩, by decide,
    C4_aging_min_victim (fullSys Algo.aging) ⟨by decide, by decide⟩ (by decide)⟩

/-- C5: A frame visited by CLOCK whose page has REFERENCED set is never
evicted on that visit — the bit is cleared and the cursor advances
circularly; the victim is the first visited frame whose REFERENCED bit
is clear at visit time (after a full lap of clearing, the wrap-around
visit of the start frame). -/
theorem C5_clock_second_chance (s : Sys) (hinj : FpInj s)
    (hc1 : -1 ≤ s.fifo_current) (hc2 : s.fifo_current < (VMEM_NFRAMES : Int)) :
    ∃ (s' : Sys) (k : Nat), k ≤ VMEM_NFRAMES ∧
      find_remove_clock s = some (s', visitSeq s.fifo_current k) ∧
      (∀ j : Nat, j < k → refSet s (s.framepage (visitSeq s.fifo_current j))) ∧
      (∀ j : Nat, j < k → ¬ refSet s' (s.framepage (visitSeq s.fifo_current j))) ∧
      (k < VMEM_NFRAMES → ¬ refSet s (s.framepage (visitSeq s.fifo_current k))) ∧
      (∀ q : Int, (s'.entries q).frame =
        if q = s.framepage (visitSeq s.fifo_current k) then VOID_IDX
        else (s.entries q).frame) ∧
      (k = VMEM_NFRAMES → visitSeq s.fifo_current k = visitSeq s.fifo_current 0) := by
  obtain ⟨s', k, hk, heq, hok, href, hclr, hfin⟩ := find_remove_clock_spec s hinj hc1 hc2
  refine ⟨s', k, hk, heq, href, hclr, hfin, hok.frame_eq, ?_⟩
  intro hkN
  rw [hkN]
  exact visitSeq_wrap hc1 hc2

theorem C5_clock_second_chance_witness :
    FpInj (fullSys Algo.clock) ∧
    -1 ≤ (fullSys Algo.clock).fifo_current ∧
    (fullSys Algo.clock).fifo_current < (VMEM_NFRAMES : Int) ∧
    (∃ (s' : Sys) (k : Nat), k ≤ VMEM_NFRAMES ∧
      find_remove_clock (fullSys Algo.clock) =
        some (s', visitSeq (fullSys Algo.clock).fifo_current k) ∧
      (∀ j : Nat, j < k → refSet (fullSys Algo.clock)
        ((fullSys Algo.clock).framepage (visitSeq (fullSys Algo.clock).fifo_current j))) ∧
      (∀ j : Nat, j < k → ¬ refSet s'
        ((fullSys Algo.clock).framepage (visitSeq (fullSys Algo.clock).fifo_current j))) ∧
      (k < VMEM_NFRAMES → ¬ refSet (fullSys Algo.clock)
        ((fullSys Algo.clock).framepage (visitSeq (fullSys Algo.clock).fifo_current k))) ∧
      (∀ q : Int, (s'.entries q).frame =
        if q = (fullSys Algo.clock).framepage
            (visitSeq (fullSys Algo.clock).fifo_current k) then VOID_IDX
        else ((fullSys Algo.clock).entries q).frame) ∧
      (k = VMEM_NFRAMES → visitSeq (fullSys Algo.clock).fifo_current k =
        visitSeq (fullSys Algo.clock).fifo_current 0)) :=
  ⟨FpInj_fullSys _, by decide, by decide,
    C5_clock_second_chance (fullSys Algo.clock) (FpInj_fullSys _) (by decide) (by decide)⟩

/-- C6: The decay pass runs exactly when the access counter is a
multiple of `UPDATE_AGE_COUNT`; it halves the age of every resident
page, sets the top age bit and clears REFERENCED for those resident
pages whose REFERENCED bit was set, and leaves non-resident pages'
entries untouched. -/
theorem C6_aging_decay_pass (s : Sys) (hInv : Inv s) :
    (s.g_count % UPDATE_AGE_COUNT ≠ 0 → update_age_reset_ref s = s) ∧
    (s.g_count % UPDATE_AGE_COUNT = 0 →
      ∀ p : Int, 0 ≤ p → p < (VMEM_NPAGES : Int) →
        ((s.entries p).frame ≠ VOID_IDX →
          ((update_age_reset_ref s).entries p).age =
            (if refSet s p then (s.entries p).age / 2 ||| 0x80
             else (s.entries p).age / 2) ∧
          (refSet s p → ¬ refSet (update_age_reset_ref s) p) ∧
          (¬ refSet s p →
            ((update_age_reset_ref s).entries p).flags = (s.entries p).flags)) ∧
        ((s.entries p).frame = VOID_IDX →
          (update_age_reset_ref s).entries p = s.entries p)) := by
  constructor
  · intro hg
    rw [update_age_reset_ref, if_neg hg]
  · intro hg p hp1 hp2
    obtain ⟨hres_case, hnres_case⟩ := update_age_reset_ref_spec s hInv hg p hp1 hp2
    refine ⟨?_, hnres_case⟩
    intro hres
    have he := hres_case hres
    by_cases hr : refSet s p
    · have hr' : (s.entries p).flags &&& PTF_REF = PTF_REF := hr
      have hflags : ((update_age_reset_ref s).entries p).flags =
          (s.entries p).flags ^^^ PTF_REF := by
        rw [he]
        simp only [agePass]
        rw [if_pos hr']
      refine ⟨?_, ?_, fun hcon => absurd hr hcon⟩
      · rw [he]
        simp only [agePass]
        rw [if_pos hr', if_pos hr]
      · intro _
        show ¬ (((update_age_reset_ref s).entries p).flags &&& PTF_REF = PTF_REF)
        rw [hflags, xor_ref_clears_ref hr']
        simp [PTF_REF]
    · have hr' : ¬ ((s.entries p).flags &&& PTF_REF = PTF_REF) := hr
      refine ⟨?_, fun hcon => absurd hcon hr, ?_⟩
      · rw [he]
        simp only [agePass]
        rw [if_neg hr', if_neg hr]
      · intro _
        rw [he]
        simp only [agePass]
        rw [if_neg hr']

theorem C6_aging_decay_pass_witness :
    Inv (fullSys Algo.aging) ∧
    (fullSys Algo.aging).g_count % UPDATE_AGE_COUNT = 0 ∧
    0 ≤ (0 : Int) ∧ (0 : Int) < (VMEM_NPAGES : Int) ∧
    ((fullSys Algo.aging).entries 0).frame ≠ VOID_IDX ∧
    (((fullSys Algo.aging).g_count % UPDATE_AGE_COUNT ≠ 0 →
      update_age_reset_ref (fullSys Algo.aging) = fullSys Algo.aging) ∧
    ((fullSys Algo.aging).g_count % UPDATE_AGE_COUNT = 0 →
      ∀ p : Int, 0 ≤ p → p < (VMEM_NPAGES : Int) →
        (((fullSys Algo.aging).entries p).frame ≠ VOID_IDX →
          ((update_age_reset_ref (fullSys Algo.aging)).entries p).age =
            (if refSet (fullSys Algo.aging) p then
              ((fullSys Algo.aging).entries p).age / 2 ||| 0x80
             else ((fullSys Algo.aging).entries p).age / 2) ∧
          (refSet (fullSys Algo.aging) p →
            ¬ refSet (update_age_reset_ref (fullSys Algo.aging)) p) ∧
          (¬ refSet (fullSys Algo.aging) p →
            ((update_age_reset_ref (fullSys Algo.aging)).entries p).flags =
              ((fullSys Algo.aging).entries p).flags)) ∧
        (((fullSys Algo.aging).entries p).frame = VOID_IDX →
          (update_age_reset_ref (fullSys Algo.aging)).entries p =
            (fullSys Algo.aging).entries p))) :=
  ⟨Inv_fullSys _, by decide, by decide, by decide, by decide,
    C6_aging_decay_pass (fullSys Algo.aging) (Inv_fullSys _)⟩

/-- C7 (amended): for valid addresses the translator decomposes
`a` into `offset = a mod page_size` and `page_number = a div page_size`;
writing `v` at `a` and then reading `a` returns `v` for any intervening
sequence of operations that keeps the containing page resident AND does
not itself write to address `a` (the unamended claim admits intervening
writes to `a`, which overwrite the stored value). -/
theorem C7_round_trip (s s1 s2 : Sys) (a v f : Int) (ops : List Op)
    (hInv : Inv s) (ha1 : 0 ≤ a) (ha2 : a < (VMEM_VIRTMEMSIZE : Int))
    (hw : vmem_write s a v = .ok s1)
    (hf : (s1.entries (pageOfAddr a)).frame = f)
    (hkeep : keepsResident (pageOfAddr a) f s1 ops = true)
    (hrun : runOps s1 ops = .ok s2)
    (hnw : ∀ v' : Int, Op.write a v' ∉ ops) :
    offsetOfAddr a = a % (VMEM_PAGESIZE : Int) ∧
    pageOfAddr a = a / (VMEM_PAGESIZE : Int) ∧
    ∃ s3 : Sys, vmem_read s2 a = .ok (s3, v) := by
  have hps : (VMEM_PAGESIZE : Int) = 8 := rfl
  obtain ⟨ho1, ho2⟩ := offsetOfAddr_range a
  obtain ⟨hInv1, hp0, hp2, _, fr, hfr1, hfr2, hfrq, hwrote, hwin, hfine⟩ :=
    vmem_write_effects s s1 a v hInv hw
  have hffr : f = fr := by rw [← hf, hfrq]
  subst hffr
  have hop : ∀ b w : Int, Op.write b w ∈ ops →
      pageOfAddr b ≠ pageOfAddr a ∨ f * (VMEM_PAGESIZE : Int) + offsetOfAddr b ≠
        f * (VMEM_PAGESIZE : Int) + offsetOfAddr a := by
    intro b w hbw
    by_cases hpg : pageOfAddr b = pageOfAddr a
    · right
      intro hcon
      apply hnw w
      have hoff : offsetOfAddr b = offsetOfAddr a := by omega
      have hb := addr_decomp b
      have hax := addr_decomp a
      rw [hpg, hoff] at hb
      have hba : b = a := by
        rw [hps] at hb hax
        omega
      rw [← hba]
      exact hbw
    · left
      exact hpg
  obtain ⟨hInv2, hres2, hdata2⟩ := runOps_keeps (pageOfAddr a) f
    (f * (VMEM_PAGESIZE : Int) + offsetOfAddr a) hp0 hp2 hfr1 hfr2
    (by rw [hps]; omega) (by rw [hps]; omega) ops s1 s2 hInv1 hfrq hop hrun hkeep
  obtain ⟨s3, hread⟩ := vmem_read_resident s2 a hp0 hp2
    (by rw [hres2]; exact hfr1) (by rw [hres2]; exact hfr2)
  rw [hres2, hdata2, hwrote] at hread
  refine ⟨?_, pageOfAddr_div a ha1, s3, hread⟩
  rw [hps]
  exact offsetOfAddr_emod a

/-- C7 counterexample: writing 5 at address 0, then running the single
intervening operation "write 6 at address 0" — which keeps page 0
resident in its frame throughout — makes the final read of address 0
return 6, not the 5 first written: the claim's round trip fails for
intervening sequences that merely avoid evicting the page. -/
theorem C7_counterexample :
    Inv (fullSys Algo.fifo) ∧
    ∃ s1 s2 s3 : Sys,
      vmem_write (fullSys Algo.fifo) 0 5 = .ok s1 ∧
      keepsResident (pageOfAddr 0) ((s1.entries (pageOfAddr 0)).frame) s1
        [Op.write 0 6] = true ∧
      runOps s1 [Op.write 0 6] = .ok s2 ∧
      vmem_read s2 0 = .ok (s3, 6) := by
  have hp0 : 0 ≤ pageOfAddr 0 := by
    rw [pageOfAddr_zero]
  have hp2 : pageOfAddr 0 < (VMEM_NPAGES : Int) := by
    rw [pageOfAddr_zero]
    decide
  have hfrfull : ((fullSys Algo.fifo).entries (pageOfAddr 0)).frame = 0 := by
    rw [pageOfAddr_zero]
    decide
  obtain ⟨s1, hw⟩ := vmem_write_resident_ok (fullSys Algo.fifo) 0 5 hp0 hp2
    (by rw [hfrfull]) (by rw [hfrfull]; decide)
  obtain ⟨hInv1, _, _, _, fr1, hfr11, hfr12, hfrq1, hwrote1, hwin1, hfine1⟩ :=
    vmem_write_effects (fullSys Algo.fifo) s1 0 5 (Inv_fullSys _) hw
  obtain ⟨hfr1eq, _⟩ := hfine1 (by rw [hfrfull]; decide)
  have hfr1_0 : fr1 = 0 := by
    rw [hfr1eq, hfrfull]
  obtain ⟨s2, hw2⟩ := vmem_write_resident_ok s1 0 6 hp0 hp2
    (by rw [hfrq1, hfr1_0]) (by rw [hfrq1, hfr1_0]; decide)
  obtain ⟨hInv2, _, _, _, fr2, hfr21, hfr22, hfrq2, hwrote2, hwin2, hfine2⟩ :=
    vmem_write_effects s1 s2 0 6 hInv1 hw2
  obtain ⟨hfr2eq, _⟩ := hfine2 (by rw [hfrq1, hfr1_0]; decide)
  have hfr2_0 : fr2 = 0 := by
    rw [hfr2eq, hfrq1, hfr1_0]
  have hdo : doOp s1 (Op.write 0 6) = .ok s2 := hw2
  have hkeep : keepsResident (pageOfAddr 0) ((s1.entries (pageOfAddr 0)).frame) s1
      [Op.write 0 6] = true := by
    rw [keepsResident, hdo]
    dsimp only
    rw [hfrq2, hfrq1, hfr2_0, hfr1_0]
    rfl
  have hrun : runOps s1 [Op.write 0 6] = .ok s2 := by
    rw [runOps, hdo]
    dsimp only
    rw [runOps]
  obtain ⟨s3, hread⟩ := vmem_read_resident s2 0 hp0 hp2
    (by rw [hfrq2, hfr2_0]) (by rw [hfrq2, hfr2_0]; decide)
  rw [hfrq2, hfr2_0] at hread
  rw [hfr2_0] at hwrote2
  rw [hwrote2] at hread
  exact ⟨Inv_fullSys _, s1, s2, s3, hw, hkeep, hrun, hread⟩

theorem C7_round_trip_witness :
    Inv (fullSys Algo.fifo) ∧ 0 ≤ (0 : Int) ∧ (0 : Int) < (VMEM_VIRTMEMSIZE : Int) ∧
    (∀ v' : Int, Op.write 0 v' ∉ ([] : List Op)) ∧
    ∃ s1 : Sys, vmem_write (fullSys Algo.fifo) 0 5 = .ok s1 ∧
      keepsResident (pageOfAddr 0) ((s1.entries (pageOfAddr 0)).frame) s1 [] = true ∧
      runOps s1 [] = .ok s1 ∧
      (offsetOfAddr 0 = 0 % (VMEM_PAGESIZE : Int) ∧
       pageOfAddr 0 = 0 / (VMEM_PAGESIZE : Int) ∧
       ∃ s3 : Sys, vmem_read s1 0 = .ok (s3, 5)) := by
  have hp0 : 0 ≤ pageOfAddr 0 := by
    rw [pageOfAddr_zero]
  have hp2 : pageOfAddr 0 < (VMEM_NPAGES : Int) := by
    rw [pageOfAddr_zero]
    decide
  have hfrfull : ((fullSys Algo.fifo).entries (pageOfAddr 0)).frame = 0 := by
    rw [pageOfAddr_zero]
    decide
  obtain ⟨s1, hw⟩ := vmem_write_resident_ok (fullSys Algo.fifo) 0 5 hp0 hp2
    (by rw [hfrfull]) (by rw [hfrfull]; decide)
  have hkeep : keepsResident (pageOfAddr 0) ((s1.entries (pageOfAddr 0)).frame) s1 []
      = true := rfl
  have hrun : runOps s1 [] = .ok s1 := by
    rw [runOps]
  have hnw : ∀ v' : Int, Op.write 0 v' ∉ ([] : List Op) := by
    intro v' hmem
    simp at hmem
  have happ := C7_round_trip (fullSys Algo.fifo) s1 s1 0 5
    ((s1.entries (pageOfAddr 0)).frame) [] (Inv_fullSys _) (by decide) (by decide)
    hw rfl hkeep hrun hnw
  exact ⟨Inv_fullSys _, by decide, by decide, hnw, s1, hw, hkeep, hrun, happ⟩

/-- C8 (amended): an out-of-range page number makes both translator
calls fail with the fatal bounds abort; `vmem_write` aborts with the
pre-state untouched, but `vmem_read` publishes the out-of-range page
number in the shared requested-page slot *before* its bounds checks, so
its abort state differs from the pre-state in exactly that slot (the
unamended claim promises no shared-state mutation for reads too). -/
theorem C8_bounds_fault (s : Sys) (a d : Int)
    (h : pageOfAddr a < 0 ∨ (VMEM_NPAGES : Int) ≤ pageOfAddr a) :
    vmem_write s a d = .error s ∧
    vmem_read s a = .error { s with req_pageno := pageOfAddr a } := by
  rcases h with h | h
  · constructor
    · simp only [vmem_write]
      rw [if_pos h]
    · simp only [vmem_read]
      rw [if_pos h]
  · have h0 : ¬ pageOfAddr a < 0 := by
      simp only [VMEM_NPAGES] at h
      omega
    constructor
    · simp only [vmem_write]
      rw [if_neg h0, if_pos h]
    · simp only [vmem_read]
      rw [if_neg h0, if_pos h]

/-- C8 counterexample: a read of address `-8` computes the out-of-range
page number `-1` and aborts — but the abort state's requested-page slot
already holds `-1` instead of the pre-state's `16`: the shared
requested-page slot WAS mutated before termination, contradicting the
claim. -/
theorem C8_counterexample :
    pageOfAddr (-8) < 0 ∧
    (errState (fullSys Algo.fifo) (vmem_read (fullSys Algo.fifo) (-8))).req_pageno
      = -1 ∧
    (fullSys Algo.fifo).req_pageno = 16 := by
  refine ⟨by decide, by decide, by decide⟩

theorem C8_bounds_fault_witness :
    (pageOfAddr (-8) < 0 ∨ (VMEM_NPAGES : Int) ≤ pageOfAddr (-8)) ∧
    vmem_write (fullSys Algo.fifo) (-8) 0 = .error (fullSys Algo.fifo) ∧
    vmem_read (fullSys Algo.fifo) (-8) =
      .error { fullSys Algo.fifo with req_pageno := pageOfAddr (-8) } := by
  have h := C8_bounds_fault (fullSys Algo.fifo) (-8) 0 (Or.inl (by decide))
  exact ⟨Or.inl (by decide), h.1, h.2⟩

end VMA3
